import Mathlib

/-! # `vbios-extract.c`: VFCT table loader, record walker and blob emitter

Shallow embedding of `main` from
`ansible/roles/igpu-passthrough/files/vbios-extract.c`.

* The table is a list of bytes; every memory access of the C program is a
  bounds-checked read of that list, and an access outside the allocated
  buffer is reported as a distinguished outcome instead of a value.
* `ULONG` values are natural numbers reduced modulo `2 ^ 32` wherever the C
  arithmetic can wrap; `size_t` arithmetic is reduced modulo `2 ^ 64`.
* The environment (the input stream, `malloc`/`realloc`, and the result of
  creating and writing each output file) is an explicit parameter.
* The `while` loop is a step function `loopBody` iterated by `walk` with fuel.
* The working directory is a map from file names to contents; a run changes
  it only through the files it creates, each replaced as a whole.
-/

set_option maxRecDepth 4096

namespace VbiosExtract

/-- One octet of the table. -/
abbrev Byte := UInt8

/-! ## Structure layout (`sizeof` and field offsets of the C structs) -/

/-- Size of `UEFI_ACPI_VFCT`: a 36-byte `AMD_ACPI_DESCRIPTION_HEADER`, the
16-byte `TableUUID`, two `ULONG` offsets and `ULONG Reserved[4]`. -/
def sizeofVfct : Nat := 36 + 16 + 4 + 4 + 16

/-- Size of `VFCT_IMAGE_HEADER`: three `ULONG`, four `USHORT`, two `ULONG`. -/
def sizeofImageHeader : Nat := 3 * 4 + 4 * 2 + 2 * 4

/-- Offset of `SHeader.TableLength` in `UEFI_ACPI_VFCT`. -/
def offTableLength : Nat := 4

/-- Offset of `VBIOSImageOffset` in `UEFI_ACPI_VFCT` (`0x34`). -/
def offVBIOSImageOffset : Nat := 36 + 16

/-- Offset of `PCIBus` in `VFCT_IMAGE_HEADER`. -/
def offPCIBus : Nat := 0

/-- Offset of `PCIDevice` in `VFCT_IMAGE_HEADER`. -/
def offPCIDevice : Nat := 4

/-- Offset of `PCIFunction` in `VFCT_IMAGE_HEADER`. -/
def offPCIFunction : Nat := 8

/-- Offset of `VendorID` in `VFCT_IMAGE_HEADER` (`0x58 - 0x4C`). -/
def offVendorID : Nat := 12

/-- Offset of `DeviceID` in `VFCT_IMAGE_HEADER` (`0x5A - 0x4C`). -/
def offDeviceID : Nat := 14

/-- Offset of `ImageLength` in `VFCT_IMAGE_HEADER` (`0x64 - 0x4C`). -/
def offImageLength : Nat := 24

/-! ## Bounds-checked memory reads (little-endian host) -/

/-- Value of the byte at index `i`, `0` when there is none. -/
def byteAt (buf : List Byte) (i : Nat) : Nat := (buf.getD i 0).toNat

/-- Load of a `USHORT` at byte index `i`; `none` when it is not inside `buf`. -/
def readU16 (buf : List Byte) (i : Nat) : Option Nat :=
  if i + 2 ≤ buf.length then
    some (byteAt buf i + 256 * byteAt buf (i + 1))
  else none

/-- Load of a `ULONG` at byte index `i`; `none` when it is not inside `buf`. -/
def readU32 (buf : List Byte) (i : Nat) : Option Nat :=
  if i + 4 ≤ buf.length then
    some (byteAt buf i + 256 * byteAt buf (i + 1) + 65536 * byteAt buf (i + 2)
      + 16777216 * byteAt buf (i + 3))
  else none

/-- The `n` bytes starting at index `i`; `none` when they are not all inside
`buf`. -/
def readBytes (buf : List Byte) (i n : Nat) : Option (List Byte) :=
  if i + n ≤ buf.length then some ((buf.drop i).take n) else none

/-! ## Artifact names: `snprintf(vbios_name, 0x400, "vbios_%x_%x.bin", ...)` -/

/-- Lowercase hexadecimal digit. -/
def hexDigit : Nat → Char
  | 0 => '0' | 1 => '1' | 2 => '2' | 3 => '3'
  | 4 => '4' | 5 => '5' | 6 => '6' | 7 => '7'
  | 8 => '8' | 9 => '9' | 10 => 'a' | 11 => 'b'
  | 12 => 'c' | 13 => 'd' | 14 => 'e' | _ => 'f'

/-- Digits of `n` in base 16, most significant first, at most `fuel` of them. -/
def hexDigits : Nat → Nat → List Char
  | 0, _ => []
  | fuel + 1, n =>
    if n < 16 then [hexDigit n] else hexDigits fuel (n / 16) ++ [hexDigit (n % 16)]

/-- Conversion `%x` of an `unsigned int`: no padding, no prefix. -/
def fmtHex (n : Nat) : String := String.mk (hexDigits 8 (n % 2 ^ 32))

/-- Name built at line 153; the 0x400-byte buffer is never exhausted by the
at most 27 characters written. -/
def vbiosName (vendorID deviceID : Nat) : String :=
  "vbios_" ++ fmtHex vendorID ++ "_" ++ fmtHex deviceID ++ ".bin"

/-! ## Environment and observable trace -/

/-- What the environment does with one output file: `fopen(name, "wb")` fails,
or it succeeds and `fwrite` stores at most `n` bytes, or stores all of them. -/
inductive IoResult where
  | createFail
  | short (n : Nat)
  | full
  deriving DecidableEq, Repr

/-- Return value of `fwrite(ptr, 1, len, fp)` under an `IoResult`. -/
def fwriteCount : IoResult → Nat → Nat
  | .createFail, _ => 0
  | .short n, len => min n len
  | .full, len => len

/-- What happened to the file of one record. -/
inductive EmitResult where
  | createFailed
  | shortWrite (bytes : List Byte)
  | written (bytes : List Byte)
  /-- The file was created and truncated by `fopen`, and `fwrite` was then
  handed bytes that do not all lie inside the table: what the file holds is
  not defined. -/
  | faulted
  deriving DecidableEq, Repr

/-- One executed iteration of the loop that reached `snprintf`/`fopen`. -/
structure Event where
  cursor : Nat
  vendorID : Nat
  deviceID : Nat
  name : String
  imageLength : Nat
  result : EmitResult
  deriving DecidableEq, Repr

/-- Whether the iteration incremented `extracted_count`. -/
def Event.extracted (e : Event) : Bool :=
  match e.result with
  | .written _ => true
  | _ => false

/-- The part of an event fixed by the table alone. -/
def Event.visit (e : Event) : Nat × Nat × Nat × String × Nat :=
  (e.cursor, e.vendorID, e.deviceID, e.name, e.imageLength)

/-- The file name and the bytes stored in it, for an event whose file was
created and filled from the table. The file of a `faulted` event exists too,
but no bytes can be given for it. -/
def Event.artifact (e : Event) : Option (String × List Byte) :=
  match e.result with
  | .createFailed => none
  | .shortWrite bytes => some (e.name, bytes)
  | .written bytes => some (e.name, bytes)
  | .faulted => none

/-! ## The record walking loop (lines 139-177) -/

/-- Local variables of `main` that the loop changes, with the trace. -/
structure WalkState where
  offset : Nat
  extracted_count : Nat
  events : List Event
  deriving DecidableEq, Repr

/-- Result of one execution of the loop body. -/
inductive Step where
  /-- End of the body or `continue`: back to the loop condition. -/
  | next (s : WalkState)
  /-- The `break` at line 145. -/
  | stop
  /-- A load from an address outside the table buffer; `events` is the trace
  up to it, with the event of the file this iteration had already created. -/
  | fault (events : List Event)
  deriving DecidableEq, Repr

/-- The two additions `offset += sizeof(VFCT_IMAGE_HEADER); offset +=
vhdr->ImageLength;` on a `ULONG`. -/
def advance (offset imageLength : Nat) : Nat :=
  ((offset + sizeofImageHeader) % 2 ^ 32 + imageLength) % 2 ^ 32

/-- Body of the `while` loop, for a cursor that passed `offset < tbl_size`.
`io` tells, for the `k`-th file the program tries to create, what the
environment does. -/
def loopBody (io : Nat → IoResult) (buf : List Byte) (s : WalkState) : Step :=
  -- if (!vhdr->ImageLength) break;
  match readU32 buf (s.offset + offImageLength) with
  | none => .fault s.events
  | some imageLength =>
    if imageLength = 0 then .stop
    else
      -- the fields printed at lines 148-151 and formatted at line 153
      match readU16 buf (s.offset + offVendorID), readU16 buf (s.offset + offDeviceID),
          readU32 buf (s.offset + offPCIBus), readU32 buf (s.offset + offPCIDevice),
          readU32 buf (s.offset + offPCIFunction) with
      | some vendorID, some deviceID, some _, some _, some _ =>
        let name := vbiosName vendorID deviceID
        let offset1 := advance s.offset imageLength
        let ev (r : EmitResult) : Event :=
          { cursor := s.offset, vendorID := vendorID, deviceID := deviceID, name := name,
            imageLength := imageLength, result := r }
        match io s.events.length with
        | .createFail =>
          -- fopen failed: message, advance, continue
          .next { offset := offset1, extracted_count := s.extracted_count,
                  events := s.events ++ [ev .createFailed] }
        | r =>
          -- fwrite(&vbios->VbiosContent, 1, vhdr->ImageLength, fp_vbios)
          match readBytes buf (s.offset + sizeofImageHeader) imageLength with
          | none =>
            -- fopen at line 155 has created the file; fwrite reads past the table
            .fault (s.events ++ [ev .faulted])
          | some payload =>
            if imageLength ≠ fwriteCount r imageLength then
              .next { offset := offset1, extracted_count := s.extracted_count,
                      events := s.events ++ [ev (.shortWrite (payload.take (fwriteCount r imageLength)))] }
            else
              .next { offset := offset1, extracted_count := s.extracted_count + 1,
                      events := s.events ++ [ev (.written payload)] }
      | _, _, _, _, _ => .fault s.events

/-- How the loop ended. -/
inductive Status where
  /-- The loop condition failed or the `break` was taken. -/
  | done
  /-- A byte outside the table buffer was read. -/
  | outOfBounds
  /-- The loop was still running when the fuel ran out. -/
  | outOfFuel
  deriving DecidableEq, Repr

/-- State of the program after the loop. -/
structure WalkResult where
  status : Status
  extracted_count : Nat
  events : List Event
  deriving DecidableEq, Repr

/-- The loop `while (offset < tbl_size) { ... }`, at most `fuel` iterations. -/
def walk (io : Nat → IoResult) (buf : List Byte) (tbl_size : Nat) :
    Nat → WalkState → WalkResult
  | fuel, s =>
    if s.offset < tbl_size then
      match fuel with
      | 0 => ⟨.outOfFuel, s.extracted_count, s.events⟩
      | fuel + 1 =>
        match loopBody io buf s with
        | .next s1 => walk io buf tbl_size fuel s1
        | .stop => ⟨.done, s.extracted_count, s.events⟩
        | .fault events => ⟨.outOfBounds, s.extracted_count, events⟩
    else ⟨.done, s.extracted_count, s.events⟩

/-! ## The loader (lines 84-134) and `main` -/

/-- The five `return 1` of the loader. -/
inductive LoadError where
  | sourceUnavailable
  | allocFailed
  | truncatedHeader
  | reallocFailed
  | truncatedBody
  deriving DecidableEq, Repr

/-- Everything `main` depends on. -/
structure Env where
  /-- Content of `/sys/firmware/acpi/tables/VFCT`, `none` when `fopen` fails. -/
  vfct : Option (List Byte)
  /-- Whether `malloc(sizeof(UEFI_ACPI_VFCT))` returns a block. -/
  mallocOk : Bool
  /-- Whether `realloc(pvfct, tbl_size)` returns a block. -/
  reallocOk : Bool
  /-- Fate of the `k`-th output file. -/
  io : Nat → IoResult

/-- Observable outcome of a run. -/
inductive Outcome where
  /-- One of the `return 1` of the loader was taken. -/
  | loadFailed (e : LoadError)
  /-- The second `fread` stored bytes past the end of the reallocated block. -/
  | loadOverrun
  /-- The loader succeeded and the loop ran. -/
  | walked (r : WalkResult)
  deriving DecidableEq, Repr

/-- Number of bytes requested from the second `fread`:
`tbl_size - sizeof(UEFI_ACPI_VFCT)` in `size_t`. -/
def bodyRequest (tbl_size : Nat) : Nat := (tbl_size + 2 ^ 64 - sizeofVfct) % 2 ^ 64

/-- The program. -/
def main (env : Env) (fuel : Nat) : Outcome :=
  match env.vfct with
  | none => .loadFailed .sourceUnavailable
  | some stream =>
    if env.mallocOk = false then .loadFailed .allocFailed
    else
      -- fread(pvfct, 1, sizeof(UEFI_ACPI_VFCT), fp_vfct)
      let hdr := stream.take sizeofVfct
      if hdr.length ≠ sizeofVfct then .loadFailed .truncatedHeader
      else
        match readU32 hdr offVBIOSImageOffset, readU32 hdr offTableLength with
        | some offset, some tbl_size =>
          if env.reallocOk = false then .loadFailed .reallocFailed
          else
            -- fread(pvfct + 1, 1, tbl_size - sizeof(UEFI_ACPI_VFCT), fp_vfct)
            let body := (stream.drop sizeofVfct).take (bodyRequest tbl_size)
            if body ≠ [] ∧ tbl_size < sizeofVfct + body.length then .loadOverrun
            else if body.length ≠ bodyRequest tbl_size then .loadFailed .truncatedBody
            else
              .walked (walk env.io (hdr ++ body) tbl_size fuel
                { offset := offset, extracted_count := 0, events := [] })
        | _, _ => .loadFailed .truncatedHeader

/-- Value returned by `main`, when it returns. -/
def exitStatus : Outcome → Option Nat
  | .loadFailed _ => some 1
  | .loadOverrun => none
  | .walked r =>
    match r.status with
    | .done => some (if r.extracted_count = 0 then 1 else 0)
    | _ => none

/-- Files the run created and filled from the table, in order, with the
bytes stored in each. -/
def artifacts : Outcome → List (String × List Byte)
  | .walked r => r.events.filterMap Event.artifact
  | _ => []

/-! ## Chains of well-formed records -/

/-- One well-formed record of a chain: identifiers and payload. -/
structure ImageRecord where
  vendorID : Nat
  deviceID : Nat
  payload : List Byte
  deriving DecidableEq, Repr

/-- The buffer holds at `c` the records `recs`, each a `VFCT_IMAGE_HEADER`
whose `ImageLength` is the non-zero length of the payload that follows it,
and the chain then ends at the end of the buffer or with a header whose
`ImageLength` is zero. -/
def chainAt (buf : List Byte) : Nat → List ImageRecord → Prop
  | c, [] => c = buf.length ∨ readU32 buf (c + offImageLength) = some 0
  | c, r :: rs =>
    readU16 buf (c + offVendorID) = some r.vendorID ∧
    readU16 buf (c + offDeviceID) = some r.deviceID ∧
    readU32 buf (c + offImageLength) = some r.payload.length ∧
    r.payload ≠ [] ∧
    readBytes buf (c + sizeofImageHeader) r.payload.length = some r.payload ∧
    chainAt buf (c + sizeofImageHeader + r.payload.length) rs

/-- Decision procedure for `chainAt`. -/
instance chainAt.decidable (buf : List Byte) :
    ∀ (c : Nat) (recs : List ImageRecord), Decidable (chainAt buf c recs)
  | c, [] => inferInstanceAs (Decidable (c = buf.length ∨ _))
  | c, r :: rs =>
    have := chainAt.decidable buf (c + sizeofImageHeader + r.payload.length) rs
    inferInstanceAs (Decidable (_ ∧ _ ∧ _ ∧ _ ∧ _ ∧ _))

/-- Trace expected from a chain of well-formed records starting at `c` when
every file is created and written in full. -/
def chainEvents : Nat → List ImageRecord → List Event
  | _, [] => []
  | c, r :: rs =>
    ⟨c, r.vendorID, r.deviceID, vbiosName r.vendorID r.deviceID, r.payload.length,
      .written r.payload⟩ :: chainEvents (c + sizeofImageHeader + r.payload.length) rs

/-! ## Observations on outcomes and traces -/

/-- Final value of `extracted_count`; the variable is still `0` when the
loader returns. -/
def extractedCount : Outcome → Nat
  | .walked r => r.extracted_count
  | _ => 0

/-- Events of a run. -/
def trace : Outcome → List Event
  | .walked r => r.events
  | _ => []

/-- The environment lets the file of a record of `len` bytes be created and
written in full. -/
def ioSucceeds (r : IoResult) (len : Nat) : Prop :=
  r ≠ .createFail ∧ fwriteCount r len = len

/-- Every file written in full holds the bytes of the table that follow the
header of its record. -/
def PayloadsFromTable (buf : List Byte) (events : List Event) : Prop :=
  ∀ (e : Event) (bytes : List Byte), e ∈ events → e.result = .written bytes →
    readBytes buf (e.cursor + sizeofImageHeader) e.imageLength = some bytes

/-! ## Concrete tables and environments -/

/-- Little-endian encoding of a `USHORT`. -/
def encodeU16 (n : Nat) : List Byte :=
  [UInt8.ofNat (n % 256), UInt8.ofNat (n / 256 % 256)]

/-- Little-endian encoding of a `ULONG`. -/
def encodeU32 (n : Nat) : List Byte :=
  [UInt8.ofNat (n % 256), UInt8.ofNat (n / 256 % 256), UInt8.ofNat (n / 65536 % 256),
    UInt8.ofNat (n / 16777216 % 256)]

/-- A run of zero bytes. -/
def zeroBytes (n : Nat) : List Byte := List.replicate n 0

/-- A `UEFI_ACPI_VFCT` with the given `TableLength` and `VBIOSImageOffset`
and zero in every other field. -/
def vfctBlock (tableLength imageOffset : Nat) : List Byte :=
  zeroBytes 4 ++ encodeU32 tableLength ++ zeroBytes 44 ++ encodeU32 imageOffset ++ zeroBytes 20

/-- A `VFCT_IMAGE_HEADER` with the given `VendorID`, `DeviceID` and
`ImageLength` and zero in every other field. -/
def imageHeaderBlock (vendorID deviceID imageLength : Nat) : List Byte :=
  zeroBytes 12 ++ encodeU16 vendorID ++ encodeU16 deviceID ++ zeroBytes 8
    ++ encodeU32 imageLength

/-- A record header as the specification sizes it: 32 bytes, the identifiers
at 12 and 14, the payload length in the last four bytes. -/
def specHeaderBlock (vendorID deviceID imageLength : Nat) : List Byte :=
  zeroBytes 12 ++ encodeU16 vendorID ++ encodeU16 deviceID ++ zeroBytes 12
    ++ encodeU32 imageLength

/-- Environment in which the table is readable and memory is available. -/
def envOf (stream : List Byte) (io : Nat → IoResult) : Env :=
  { vfct := some stream, mallocOk := true, reallocOk := true, io := io }

/-- Every file is created and written in full. -/
def allFull : Nat → IoResult := fun _ => .full

/-- No file can be created. -/
def allCreateFail : Nat → IoResult := fun _ => .createFail

/-- Payload of the scenarios. -/
def payloadA : List Byte := [0xDE, 0xAD, 0xBE, 0xEF]

/-- Record of the scenarios. -/
def recordA : ImageRecord := { vendorID := 0x1002, deviceID := 0x1586, payload := payloadA }

/-- Scenario A with the record laid out as `VFCT_IMAGE_HEADER`: the table
ends with the payload, at `0x6C`. -/
def scenarioA : List Byte :=
  vfctBlock 0x6C 0x4C ++ imageHeaderBlock 0x1002 0x1586 4 ++ payloadA

/-- Scenario A as the specification states it, `TableLength = 0x70` with a
32-byte record header whose last four bytes are the payload length. -/
def scenarioASpec : List Byte :=
  vfctBlock 0x70 0x4C ++ specHeaderBlock 0x1002 0x1586 4 ++ payloadA

/-- Scenario A in `0x70` bytes with a `VFCT_IMAGE_HEADER` padded to 32 bytes
before the payload. -/
def scenarioAPadded : List Byte :=
  vfctBlock 0x70 0x4C ++ imageHeaderBlock 0x1002 0x1586 4 ++ zeroBytes 4 ++ payloadA

/-- Scenario A in `0x70` bytes with a `VFCT_IMAGE_HEADER`, the payload, and
the four bytes left for a sentinel. -/
def scenarioATail : List Byte :=
  vfctBlock 0x70 0x4C ++ imageHeaderBlock 0x1002 0x1586 4 ++ payloadA ++ zeroBytes 4

/-- Scenario B: the stream of `scenarioASpec` ends after `0x60` bytes. -/
def scenarioB : List Byte := scenarioASpec.take 0x60

/-- A table whose only record declares 256 payload bytes and holds 4. -/
def oversizedTable : List Byte :=
  vfctBlock 0x6C 0x4C ++ imageHeaderBlock 0x1002 0x1586 0x100 ++ payloadA

/-- A table whose only record declares `2 ^ 32 - 28` payload bytes. -/
def wrapTable : List Byte :=
  vfctBlock 0x68 0x4C ++ imageHeaderBlock 0x1002 0x1586 0xFFFFFFE4

/-- A well-formed record followed by a record that declares 256 payload
bytes and holds 4. -/
def truncatedTailTable : List Byte :=
  vfctBlock 0x8C 0x4C ++ imageHeaderBlock 0x1002 0x1586 4 ++ payloadA
    ++ imageHeaderBlock 0x1002 0x1587 0x100 ++ payloadA

/-- A stream whose header declares `TableLength = 40` and that holds one byte
after the 76-byte prefix. -/
def shortLengthStream : List Byte := vfctBlock 40 0x4C ++ [0xAA]

/-- A table with a zero `ImageLength` at the image offset. -/
def emptyTable : List Byte := vfctBlock 0x6C 0x4C ++ zeroBytes 32

/-- A table with four bytes after the image offset. -/
def stubTable : List Byte := vfctBlock 0x50 0x4C ++ zeroBytes 4

/-! ## Artifact names as the specification words them -/

/-- The lowercase hexadecimal numeral of `n`: its base-16 digits, most
significant first, without leading zeros and without padding; `0` for zero. -/
def specHex (n : Nat) : String :=
  String.mk (if n = 0 then ['0'] else (Nat.digits 16 n).reverse.map Nat.digitChar)

/-- The artifact name `vbios_<vendorHex>_<deviceHex>.bin`. -/
def specName (vendorID deviceID : Nat) : String :=
  "vbios_" ++ specHex vendorID ++ "_" ++ specHex deviceID ++ ".bin"

/-- Value of a hexadecimal digit character, `16` for any other character. -/
def hexDigitValue (c : Char) : Nat :=
  if c = '0' then 0 else if c = '1' then 1 else if c = '2' then 2 else if c = '3' then 3
  else if c = '4' then 4 else if c = '5' then 5 else if c = '6' then 6 else if c = '7' then 7
  else if c = '8' then 8 else if c = '9' then 9 else if c = 'a' then 10 else if c = 'b' then 11
  else if c = 'c' then 12 else if c = 'd' then 13 else if c = 'e' then 14
  else if c = 'f' then 15 else 16

/-- Number denoted by a string of hexadecimal digits. -/
def hexValue (cs : List Char) : Nat :=
  cs.foldl (fun acc c => 16 * acc + hexDigitValue c) 0

/-! ## Little-endian values -/

/-- Value of a byte string read as a little-endian number. -/
def leValue : List Byte → Nat
  | [] => 0
  | b :: bs => b.toNat + 256 * leValue bs

/-! ## The working directory -/

/-- Files of the working directory: the content stored under each name. -/
abbrev FileSystem := String → Option (List Byte)

/-- Effect of `fopen(name, "wb")` followed by a `fwrite` that stores `bytes`:
the file is created or truncated and then holds `bytes`. -/
def FileSystem.store (fs : FileSystem) (name : String) (bytes : List Byte) : FileSystem :=
  fun n => if n = name then some bytes else fs n

/-- Files after a run that returned and that started from `fs`: each artifact
replaces the file of its name. -/
def filesAfter (fs : FileSystem) (o : Outcome) : FileSystem :=
  (artifacts o).foldl (fun f a => f.store a.1 a.2) fs

/-- Working directory after a run that started from `fs`. It is defined when
`main` returns; a run that accessed memory outside its buffer leaves files
whose content the table does not determine, and a run that is still looping
leaves none yet. -/
def directoryAfter (fs : FileSystem) (o : Outcome) : Option FileSystem :=
  match exitStatus o with
  | some _ => some (filesAfter fs o)
  | none => none

/-! ## Reachable loop states -/

/-- State after `n` complete executions of the loop body, `none` when the
loop ends or faults before. -/
def stepN (io : Nat → IoResult) (buf : List Byte) (tbl_size : Nat) :
    Nat → WalkState → Option WalkState
  | 0, s => some s
  | n + 1, s =>
    if s.offset < tbl_size then
      match loopBody io buf s with
      | .next s1 => stepN io buf tbl_size n s1
      | _ => none
    else none

/-- The record at cursor `c` fits the table when its header takes `hdr`
bytes: the header lies inside the table and so does the payload of a record
with a non-zero `ImageLength`. -/
def fitsAt (hdr : Nat) (buf : List Byte) (tbl_size c : Nat) : Prop :=
  c + hdr ≤ tbl_size ∧
    ∀ len ∈ readU32 buf (c + offImageLength), len ≠ 0 → c + hdr + len ≤ tbl_size

/-- Decision procedure for `fitsAt`. -/
instance fitsAt.decidable (hdr : Nat) (buf : List Byte) (tbl_size c : Nat) :
    Decidable (fitsAt hdr buf tbl_size c) :=
  match h : readU32 buf (c + offImageLength) with
  | none =>
    decidable_of_iff (c + hdr ≤ tbl_size) (by unfold fitsAt; rw [h]; simp)
  | some len =>
    decidable_of_iff (c + hdr ≤ tbl_size ∧ (len ≠ 0 → c + hdr + len ≤ tbl_size))
      (by unfold fitsAt; rw [h]; simp)

/-- The header fields recorded in every event are the values stored in the
table at the cursor of the event, and the name is built from the two
identifiers. -/
def HeadersFromTable (buf : List Byte) (events : List Event) : Prop :=
  ∀ e ∈ events,
    readU16 buf (e.cursor + offVendorID) = some e.vendorID ∧
    readU16 buf (e.cursor + offDeviceID) = some e.deviceID ∧
    readU32 buf (e.cursor + offImageLength) = some e.imageLength ∧
    e.name = vbiosName e.vendorID e.deviceID

/-! ## More concrete tables -/

/-- Two records with the same identifiers, the first with eight payload
bytes and the second with four. -/
def collisionTable : List Byte :=
  vfctBlock 0x90 0x4C
    ++ imageHeaderBlock 0x1002 0x1586 8 ++ [0x11, 0x22, 0x33, 0x44, 0x55, 0x66, 0x77, 0x88]
    ++ imageHeaderBlock 0x1002 0x1586 4 ++ payloadA

/-- Records of `collisionTable`. -/
def collisionRecords : List ImageRecord :=
  [{ vendorID := 0x1002, deviceID := 0x1586,
     payload := [0x11, 0x22, 0x33, 0x44, 0x55, 0x66, 0x77, 0x88] }, recordA]

/-- A record, a header with zero `ImageLength`, and a well-formed record
after it. -/
def sentinelMidTable : List Byte :=
  vfctBlock 0xA8 0x4C ++ imageHeaderBlock 0x1002 0x1586 4 ++ payloadA
    ++ imageHeaderBlock 0 0 0
    ++ imageHeaderBlock 0x1002 0x1587 4 ++ payloadA

/-- Nine records of one payload byte each, then a zero header and four more
zero bytes: `0x171` bytes. -/
def nineRecordTable : List Byte :=
  vfctBlock 0x171 0x4C
    ++ (List.replicate 9 (imageHeaderBlock 0x1002 0x1586 1 ++ [0xAA])).flatten
    ++ zeroBytes 32

/-- A table whose image offset is its own length. -/
def offsetAtEndTable : List Byte :=
  vfctBlock 0x6C 0x6C ++ imageHeaderBlock 0x1002 0x1586 4 ++ payloadA

/-- A table whose only record declares `2 ^ 32 - 76` payload bytes, so that
`offset += 28; offset += ImageLength` wraps to `0x1C`, inside the fixed
prefix, where the bytes read as `ImageLength` are the `VBIOSImageOffset`
field. -/
def wrapBackTable : List Byte :=
  vfctBlock 0x84 0x4C ++ imageHeaderBlock 0x1002 0x1586 0xFFFFFFB4 ++ zeroBytes 28

/-- The first file cannot be created; every later file is created and
written in full. -/
def firstCreateFails : Nat → IoResult := fun k => if k = 0 then .createFail else .full

/-- A stream of 75 bytes. -/
def shortStream : List Byte := (vfctBlock 0x6C 0x4C).take 75

/-! ## Lemmas on reads and on the loader -/

theorem byteAt_lt (buf : List Byte) (i : Nat) : byteAt buf i < 256 := by
  unfold byteAt
  exact (buf.getD i 0).val.isLt

theorem readU32_lt {buf : List Byte} {i v : Nat} (h : readU32 buf i = some v) : v < 2 ^ 32 := by
  unfold readU32 at h
  split at h
  · have h0 := byteAt_lt buf i
    have h1 := byteAt_lt buf (i + 1)
    have h2 := byteAt_lt buf (i + 2)
    have h3 := byteAt_lt buf (i + 3)
    simp only [Option.some.injEq] at h
    omega
  · simp at h

theorem readU32_bound {buf : List Byte} {i v : Nat} (h : readU32 buf i = some v) :
    i + 4 ≤ buf.length := by
  unfold readU32 at h
  split at h
  · assumption
  · simp at h

theorem byteAt_take {buf : List Byte} {n i : Nat} (h : i < n) :
    byteAt (buf.take n) i = byteAt buf i := by
  unfold byteAt
  simp [List.getD_eq_getElem?_getD, List.getElem?_take, h]

theorem readU32_take {buf : List Byte} {n i : Nat} (hi : i + 4 ≤ n) (hn : n ≤ buf.length) :
    readU32 (buf.take n) i = readU32 buf i := by
  unfold readU32
  have hl : (buf.take n).length = n := by simp [hn]
  rw [hl, if_pos hi, if_pos (by omega)]
  rw [byteAt_take (by omega), byteAt_take (by omega), byteAt_take (by omega), byteAt_take (by omega)]

theorem bodyRequest_eq {t : Nat} (h1 : sizeofVfct ≤ t) (h2 : t < 2 ^ 32) :
    bodyRequest t = t - sizeofVfct := by
  unfold bodyRequest sizeofVfct at *
  omega

theorem main_loaded (env : Env) (stream : List Byte) (fuel tbl_size offset : Nat)
    (hopen : env.vfct = some stream) (hm : env.mallocOk = true) (hr : env.reallocOk = true)
    (hlen : readU32 stream offTableLength = some tbl_size)
    (hoff : readU32 stream offVBIOSImageOffset = some offset)
    (h76 : sizeofVfct ≤ tbl_size) (hfull : tbl_size ≤ stream.length) :
    main env fuel = .walked (walk env.io (stream.take tbl_size) tbl_size fuel
      { offset := offset, extracted_count := 0, events := [] }) := by
  have h32 := readU32_lt hlen
  have hs : sizeofVfct ≤ stream.length := le_trans h76 hfull
  have hhl : (stream.take sizeofVfct).length = sizeofVfct := by simp [hs]
  have hreq := bodyRequest_eq h76 h32
  have hbl : ((stream.drop sizeofVfct).take (tbl_size - sizeofVfct)).length
      = tbl_size - sizeofVfct := by
    simp only [List.length_take, List.length_drop]
    omega
  have hbuf : stream.take sizeofVfct ++ (stream.drop sizeofVfct).take (tbl_size - sizeofVfct)
      = stream.take tbl_size := by
    have h := List.take_add stream sizeofVfct (tbl_size - sizeofVfct)
    have e : sizeofVfct + (tbl_size - sizeofVfct) = tbl_size := by omega
    rw [e] at h
    exact h.symm
  have hlen1 : readU32 (stream.take sizeofVfct) offTableLength = some tbl_size := by
    rw [readU32_take (by decide) hs]; exact hlen
  have hoff1 : readU32 (stream.take sizeofVfct) offVBIOSImageOffset = some offset := by
    rw [readU32_take (by decide) hs]; exact hoff
  unfold main
  simp only [hopen, hm, hhl, hlen1, hoff1, hr, hreq, hbl, hbuf]
  simp
  omega

theorem readU32_some_of_le (buf : List Byte) (i : Nat) (h : i + 4 ≤ buf.length) :
    ∃ v, readU32 buf i = some v := by
  unfold readU32
  rw [if_pos h]
  exact ⟨_, rfl⟩

theorem readBytes_bound {buf : List Byte} {i n : Nat} {p : List Byte}
    (h : readBytes buf i n = some p) : i + n ≤ buf.length := by
  unfold readBytes at h
  split at h
  · assumption
  · simp at h

theorem advance_eq {c len : Nat} (h : c + sizeofImageHeader + len < 2 ^ 32) :
    advance c len = c + sizeofImageHeader + len := by
  unfold advance
  have h1 : (c + sizeofImageHeader) % 2 ^ 32 = c + sizeofImageHeader :=
    Nat.mod_eq_of_lt (by omega)
  rw [h1, Nat.mod_eq_of_lt h]

/-- The loop body on a record that lies inside the buffer and whose file is
created and written in full. -/
theorem loopBody_full (io : Nat → IoResult) (buf : List Byte) (s : WalkState)
    {v d len : Nat} {p : List Byte}
    (hv : readU16 buf (s.offset + offVendorID) = some v)
    (hd : readU16 buf (s.offset + offDeviceID) = some d)
    (hl : readU32 buf (s.offset + offImageLength) = some len)
    (h0 : len ≠ 0)
    (hp : readBytes buf (s.offset + sizeofImageHeader) len = some p)
    (hio : io s.events.length = .full) :
    loopBody io buf s = .next
      { offset := advance s.offset len, extracted_count := s.extracted_count + 1,
        events := s.events ++ [⟨s.offset, v, d, vbiosName v d, len, .written p⟩] } := by
  have hb := readU32_bound hl
  simp only [offImageLength] at hb
  obtain ⟨x0, hx0⟩ := readU32_some_of_le (buf) (s.offset + offPCIBus)
    (by simp only [offPCIBus]; omega)
  obtain ⟨x1, hx1⟩ := readU32_some_of_le (buf) (s.offset + offPCIDevice)
    (by simp only [offPCIDevice]; omega)
  obtain ⟨x2, hx2⟩ := readU32_some_of_le (buf) (s.offset + offPCIFunction)
    (by simp only [offPCIFunction]; omega)
  unfold loopBody
  simp only [hl, h0, hv, hd, hx0, hx1, hx2, hio, hp, fwriteCount]
  simp

theorem walk_exit (io : Nat → IoResult) (buf : List Byte) (tbl_size fuel : Nat) (s : WalkState)
    (h : ¬ s.offset < tbl_size) :
    walk io buf tbl_size fuel s = ⟨.done, s.extracted_count, s.events⟩ := by
  unfold walk
  rw [if_neg h]

theorem walk_zero (io : Nat → IoResult) (buf : List Byte) (tbl_size : Nat) (s : WalkState)
    (h : s.offset < tbl_size) :
    walk io buf tbl_size 0 s = ⟨.outOfFuel, s.extracted_count, s.events⟩ := by
  unfold walk
  rw [if_pos h]

theorem walk_succ (io : Nat → IoResult) (buf : List Byte) (tbl_size fuel : Nat) (s : WalkState)
    (h : s.offset < tbl_size) :
    walk io buf tbl_size (fuel + 1) s =
      match loopBody io buf s with
      | .next s1 => walk io buf tbl_size fuel s1
      | .stop => ⟨.done, s.extracted_count, s.events⟩
      | .fault events => ⟨.outOfBounds, s.extracted_count, events⟩ := by
  rw [walk, if_pos h]

theorem loopBody_sentinel (io : Nat → IoResult) (buf : List Byte) (s : WalkState)
    (h : readU32 buf (s.offset + offImageLength) = some 0) : loopBody io buf s = .stop := by
  unfold loopBody
  simp [h]

theorem walk_chain (io : Nat → IoResult) (buf : List Byte) (hio : ∀ k, io k = .full)
    (h32 : buf.length < 2 ^ 32) :
    ∀ (recs : List ImageRecord) (fuel : Nat) (s : WalkState),
      chainAt buf s.offset recs → recs.length < fuel →
      walk io buf buf.length fuel s =
        ⟨.done, s.extracted_count + recs.length, s.events ++ chainEvents s.offset recs⟩ := by
  intro recs
  induction recs with
  | nil =>
    intro fuel s hc hf
    cases fuel with
    | zero => simp at hf
    | succ fuel =>
      simp only [chainAt] at hc
      by_cases hlt : s.offset < buf.length
      · rcases hc with hc | hc
        · omega
        · rw [walk_succ _ _ _ _ _ hlt, loopBody_sentinel _ _ _ hc]
          simp [chainEvents]
      · rw [walk_exit _ _ _ _ _ hlt]
        simp [chainEvents]
  | cons r rs ih =>
    intro fuel s hc hf
    cases fuel with
    | zero => simp at hf
    | succ fuel =>
      obtain ⟨hv, hd, hl, hne, hp, hrest⟩ := hc
      have hb := readBytes_bound hp
      have hpos : 0 < r.payload.length := List.length_pos.mpr hne
      have hlt : s.offset < buf.length := by
        simp only [sizeofImageHeader] at hb; omega
      have hadv : advance s.offset r.payload.length
          = s.offset + sizeofImageHeader + r.payload.length := advance_eq (by omega)
      rw [walk_succ _ _ _ _ _ hlt,
        loopBody_full io buf s hv hd hl (by omega) hp (hio _)]
      simp only [hadv]
      rw [ih fuel _ hrest (by simpa using hf)]
      simp [chainEvents, Nat.add_assoc, Nat.add_comm 1]

theorem length_chainEvents (c : Nat) (recs : List ImageRecord) :
    (chainEvents c recs).length = recs.length := by
  induction recs generalizing c with
  | nil => rfl
  | cons r rs ih => simp [chainEvents, ih]

theorem artifacts_chainEvents (c : Nat) (recs : List ImageRecord) :
    (chainEvents c recs).filterMap Event.artifact
      = recs.map (fun r => (vbiosName r.vendorID r.deviceID, r.payload)) := by
  induction recs generalizing c with
  | nil => rfl
  | cons r rs ih => simp [chainEvents, Event.artifact, ih]

theorem loopBody_next {io : Nat → IoResult} {buf : List Byte} {s t : WalkState}
    (h : loopBody io buf s = .next t) :
    ∃ e : Event,
      t = ⟨advance s.offset e.imageLength,
            s.extracted_count + (if e.extracted = true then 1 else 0), s.events ++ [e]⟩ ∧
      e.cursor = s.offset ∧
      readU32 buf (s.offset + offImageLength) = some e.imageLength ∧
      e.imageLength ≠ 0 ∧
      readU16 buf (s.offset + offVendorID) = some e.vendorID ∧
      readU16 buf (s.offset + offDeviceID) = some e.deviceID ∧
      e.name = vbiosName e.vendorID e.deviceID ∧
      (e.extracted = true ↔ ioSucceeds (io s.events.length) e.imageLength) ∧
      (∀ bytes, e.result = .written bytes →
        readBytes buf (s.offset + sizeofImageHeader) e.imageLength = some bytes) := by
  unfold loopBody at h
  split at h
  · cases h
  · rename_i len hlen
    split at h
    · cases h
    · rename_i hne
      split at h
      · rename_i v d x0 x1 x2 hv hd _ _ _
        split at h
        · rename_i hio
          cases h
          exact ⟨⟨s.offset, v, d, vbiosName v d, len, .createFailed⟩, by simp [Event.extracted],
            rfl, hlen, hne, hv, hd, rfl, by simp [Event.extracted, ioSucceeds, hio],
            by intro b hb; cases hb⟩
        · rename_i r hio
          split at h
          · cases h
          · rename_i p hp
            split at h
            · rename_i hcnt
              cases h
              refine ⟨⟨s.offset, v, d, vbiosName v d, len,
                  .shortWrite (p.take (fwriteCount (io s.events.length) len))⟩,
                by simp [Event.extracted], rfl, hlen, hne, hv, hd, rfl, ?_,
                by intro b hb; cases hb⟩
              simp only [Event.extracted, ioSucceeds]
              constructor
              · intro hf; cases hf
              · intro hf; exact absurd hf.2.symm hcnt
            · rename_i hcnt
              cases h
              refine ⟨⟨s.offset, v, d, vbiosName v d, len, .written p⟩,
                by simp [Event.extracted], rfl, hlen, hne, hv, hd, rfl, ?_,
                by intro b hb; cases hb; exact hp⟩
              simp only [Event.extracted, ioSucceeds]
              constructor
              · intro _
                exact ⟨fun hc => hio hc, by
                  simp only [ne_eq, Decidable.not_not] at hcnt; exact hcnt.symm⟩
              · intro _; trivial
      · cases h

theorem loopBody_stop_iff (io : Nat → IoResult) (buf : List Byte) (s : WalkState) :
    loopBody io buf s = .stop ↔ readU32 buf (s.offset + offImageLength) = some 0 := by
  constructor
  · intro h
    unfold loopBody at h
    split at h
    · cases h
    · rename_i len hlen
      split at h
      · rename_i h0; rw [hlen, h0]
      · split at h
        · split at h
          · cases h
          · split at h
            · cases h
            · split at h <;> cases h
        · cases h
  · exact loopBody_sentinel io buf s

theorem loopBody_fault {io : Nat → IoResult} {buf : List Byte} {s : WalkState}
    {events : List Event} (h : loopBody io buf s = .fault events) :
    events = s.events ∨
      ∃ e : Event, events = s.events ++ [e] ∧ e.cursor = s.offset ∧ e.result = .faulted ∧
        readU16 buf (s.offset + offVendorID) = some e.vendorID ∧
        readU16 buf (s.offset + offDeviceID) = some e.deviceID ∧
        readU32 buf (s.offset + offImageLength) = some e.imageLength ∧
        e.name = vbiosName e.vendorID e.deviceID := by
  unfold loopBody at h
  split at h
  · cases h; exact Or.inl rfl
  · rename_i len hlen
    split at h
    · cases h
    · split at h
      · rename_i v d x0 x1 x2 hv hd _ _ _
        split at h
        · cases h
        · split at h
          · cases h
            exact Or.inr ⟨⟨s.offset, v, d, vbiosName v d, len, .faulted⟩, rfl, rfl, rfl,
              hv, hd, hlen, rfl⟩
          · split at h <;> cases h
      · cases h; exact Or.inl rfl

theorem walk_visits (io1 io2 : Nat → IoResult) (buf : List Byte) (tbl_size : Nat) :
    ∀ (fuel : Nat) (s1 s2 : WalkState),
      s1.offset = s2.offset →
      s1.events.map Event.visit = s2.events.map Event.visit →
      (walk io1 buf tbl_size fuel s1).status ≠ .outOfBounds →
      (walk io2 buf tbl_size fuel s2).status ≠ .outOfBounds →
      (walk io1 buf tbl_size fuel s1).events.map Event.visit
          = (walk io2 buf tbl_size fuel s2).events.map Event.visit ∧
        (walk io1 buf tbl_size fuel s1).status = (walk io2 buf tbl_size fuel s2).status := by
  intro fuel
  induction fuel with
  | zero =>
    intro s1 s2 ho hv _ _
    by_cases hlt : s1.offset < tbl_size
    · rw [walk_zero _ _ _ _ hlt, walk_zero _ _ _ _ (ho ▸ hlt)]; exact ⟨hv, rfl⟩
    · rw [walk_exit _ _ _ _ _ hlt, walk_exit _ _ _ _ _ (ho ▸ hlt)]; exact ⟨hv, rfl⟩
  | succ fuel ih =>
    intro s1 s2 ho hv h1 h2
    by_cases hlt : s1.offset < tbl_size
    · have hlt2 : s2.offset < tbl_size := ho ▸ hlt
      rw [walk_succ _ _ _ _ _ hlt] at h1 ⊢
      rw [walk_succ _ _ _ _ _ hlt2] at h2 ⊢
      cases hb1 : loopBody io1 buf s1 with
      | fault events => rw [hb1] at h1; exact absurd rfl h1
      | stop =>
        have hb2 : loopBody io2 buf s2 = .stop := by
          rw [loopBody_stop_iff] at hb1 ⊢
          rw [← ho]; exact hb1
        rw [hb2]
        exact ⟨hv, rfl⟩
      | next t1 =>
        cases hb2 : loopBody io2 buf s2 with
        | fault events => rw [hb2] at h2; exact absurd rfl h2
        | stop =>
          have : loopBody io1 buf s1 = .stop := by
            rw [loopBody_stop_iff] at hb2 ⊢
            rw [ho]; exact hb2
          rw [this] at hb1
          cases hb1
        | next t2 =>
          rw [hb1] at h1
          rw [hb2] at h2
          obtain ⟨e1, rfl, hc1, hl1, -, hv1, hd1, hn1, -, -⟩ := loopBody_next hb1
          obtain ⟨e2, rfl, hc2, hl2, -, hv2, hd2, hn2, -, -⟩ := loopBody_next hb2
          rw [ho] at hl1 hv1 hd1 hc1
          have el : e1.imageLength = e2.imageLength := Option.some.inj (hl1.symm.trans hl2)
          have ev : e1.vendorID = e2.vendorID := Option.some.inj (hv1.symm.trans hv2)
          have ed : e1.deviceID = e2.deviceID := Option.some.inj (hd1.symm.trans hd2)
          have evis : e1.visit = e2.visit := by
            simp only [Event.visit, hc1, hc2, el, ev, ed, hn1, hn2]
          apply ih
          · simp only [ho, el]
          · simp only [List.map_append, hv, List.map_cons, evis]
          · exact h1
          · exact h2
    · rw [walk_exit _ _ _ _ _ hlt, walk_exit _ _ _ _ _ (ho ▸ hlt)]; exact ⟨hv, rfl⟩

theorem walk_payloads (io : Nat → IoResult) (buf : List Byte) (tbl_size : Nat) :
    ∀ (fuel : Nat) (s : WalkState), PayloadsFromTable buf s.events →
      PayloadsFromTable buf (walk io buf tbl_size fuel s).events := by
  intro fuel
  induction fuel with
  | zero =>
    intro s hs
    by_cases hlt : s.offset < tbl_size
    · rw [walk_zero _ _ _ _ hlt]; exact hs
    · rw [walk_exit _ _ _ _ _ hlt]; exact hs
  | succ fuel ih =>
    intro s hs
    by_cases hlt : s.offset < tbl_size
    · rw [walk_succ _ _ _ _ _ hlt]
      cases hb : loopBody io buf s with
      | next t =>
        obtain ⟨e, rfl, hc, -, -, -, -, -, -, hp⟩ := loopBody_next hb
        apply ih
        intro x bytes hx hres
        rcases List.mem_append.mp hx with hx | hx
        · exact hs x bytes hx hres
        · have hxe : x = e := by simpa using hx
          subst hxe
          rw [hc]
          exact hp bytes hres
      | stop => exact hs
      | fault events =>
        show PayloadsFromTable buf events
        rcases loopBody_fault hb with e | ⟨x, e, -, hx, -⟩
        · rw [e]; exact hs
        · rw [e]
          intro y bytes hy hres
          rcases List.mem_append.mp hy with hy | hy
          · exact hs y bytes hy hres
          · have hyx : y = x := by simpa using hy
            subst hyx
            rw [hx] at hres
            cases hres
    · rw [walk_exit _ _ _ _ _ hlt]; exact hs

theorem loopBody_createFail (io : Nat → IoResult) (buf : List Byte) (s : WalkState)
    {v d len : Nat}
    (hv : readU16 buf (s.offset + offVendorID) = some v)
    (hd : readU16 buf (s.offset + offDeviceID) = some d)
    (hl : readU32 buf (s.offset + offImageLength) = some len)
    (h0 : len ≠ 0)
    (hio : io s.events.length = .createFail) :
    loopBody io buf s = .next
      { offset := advance s.offset len, extracted_count := s.extracted_count,
        events := s.events ++ [⟨s.offset, v, d, vbiosName v d, len, .createFailed⟩] } := by
  have hb := readU32_bound hl
  simp only [offImageLength] at hb
  obtain ⟨x0, hx0⟩ := readU32_some_of_le (buf) (s.offset + offPCIBus)
    (by simp only [offPCIBus]; omega)
  obtain ⟨x1, hx1⟩ := readU32_some_of_le (buf) (s.offset + offPCIDevice)
    (by simp only [offPCIDevice]; omega)
  obtain ⟨x2, hx2⟩ := readU32_some_of_le (buf) (s.offset + offPCIFunction)
    (by simp only [offPCIFunction]; omega)
  unfold loopBody
  simp only [hl, h0, hv, hd, hx0, hx1, hx2, hio]
  simp

theorem readU16_some_of_le (buf : List Byte) (i : Nat) (h : i + 2 ≤ buf.length) :
    ∃ v, readU16 buf i = some v := by
  unfold readU16
  rw [if_pos h]
  exact ⟨_, rfl⟩

theorem loopBody_oversized (io : Nat → IoResult) (buf : List Byte) (s : WalkState) {len : Nat}
    (hl : readU32 buf (s.offset + offImageLength) = some len)
    (h0 : len ≠ 0)
    (hover : buf.length < s.offset + sizeofImageHeader + len)
    (hio : io s.events.length ≠ .createFail) :
    ∃ v d, readU16 buf (s.offset + offVendorID) = some v ∧
      readU16 buf (s.offset + offDeviceID) = some d ∧
      loopBody io buf s
        = .fault (s.events ++ [⟨s.offset, v, d, vbiosName v d, len, .faulted⟩]) := by
  have hb := readU32_bound hl
  simp only [offImageLength] at hb
  obtain ⟨x0, hx0⟩ := readU32_some_of_le (buf) (s.offset + offPCIBus)
    (by simp only [offPCIBus]; omega)
  obtain ⟨x1, hx1⟩ := readU32_some_of_le (buf) (s.offset + offPCIDevice)
    (by simp only [offPCIDevice]; omega)
  obtain ⟨x2, hx2⟩ := readU32_some_of_le (buf) (s.offset + offPCIFunction)
    (by simp only [offPCIFunction]; omega)
  obtain ⟨v, hv⟩ := readU16_some_of_le (buf) (s.offset + offVendorID)
    (by simp only [offVendorID]; omega)
  obtain ⟨d, hd⟩ := readU16_some_of_le (buf) (s.offset + offDeviceID)
    (by simp only [offDeviceID]; omega)
  have hp : readBytes buf (s.offset + sizeofImageHeader) len = none := by
    unfold readBytes
    rw [if_neg (by omega)]
  refine ⟨v, d, hv, hd, ?_⟩
  unfold loopBody
  simp only [hl, h0, hv, hd, hx0, hx1, hx2, hp]
  cases hio2 : io s.events.length with
  | createFail => exact absurd hio2 hio
  | short n => simp
  | full => simp

theorem walk_oversized (io : Nat → IoResult) (buf : List Byte)
    (s : WalkState) (len fuel : Nat)
    (hl : readU32 buf (s.offset + offImageLength) = some len)
    (h0 : len ≠ 0)
    (hover : buf.length < s.offset + sizeofImageHeader + len)
    (hio : io s.events.length ≠ .createFail) :
    ∃ e : Event,
      walk io buf buf.length (fuel + 1) s
        = ⟨.outOfBounds, s.extracted_count, s.events ++ [e]⟩ ∧
      e.cursor = s.offset ∧ e.imageLength = len ∧ e.result = .faulted := by
  have hb := readU32_bound hl
  have hlt : s.offset < buf.length := by omega
  obtain ⟨v, d, -, -, hbody⟩ := loopBody_oversized io buf s hl h0 hover hio
  refine ⟨⟨s.offset, v, d, vbiosName v d, len, .faulted⟩, ?_, rfl, rfl, rfl⟩
  rw [walk_succ _ _ _ _ _ hlt, hbody]

theorem loopBody_truncated_header (io : Nat → IoResult) (buf : List Byte) (s : WalkState)
    (h : buf.length < s.offset + sizeofImageHeader) :
    loopBody io buf s = .fault s.events := by
  have hl : readU32 buf (s.offset + offImageLength) = none := by
    unfold readU32
    rw [if_neg (by simp only [offImageLength, sizeofImageHeader] at *; omega)]
  unfold loopBody
  simp only [hl]

theorem main_walked {env : Env} {fuel : Nat} {r : WalkResult} (h : main env fuel = .walked r) :
    ∃ buf tbl_size offset,
      r = walk env.io buf tbl_size fuel { offset := offset, extracted_count := 0, events := [] } := by
  unfold main at h
  split at h
  · cases h
  · split at h
    · cases h
    · simp only at h
      split at h
      · cases h
      · split at h
        · split at h
          · cases h
          · split at h
            · cases h
            · split at h
              · cases h
              · cases h
                exact ⟨_, _, _, rfl⟩
        · cases h

theorem main_truncated_body (env : Env) (stream : List Byte) (fuel tbl_size : Nat)
    (hopen : env.vfct = some stream)
    (hpre : sizeofVfct ≤ stream.length)
    (hlen : readU32 stream offTableLength = some tbl_size)
    (h76 : sizeofVfct ≤ tbl_size) (hshort : stream.length < tbl_size) :
    main env fuel =
      if env.mallocOk = false then .loadFailed .allocFailed
      else if env.reallocOk = false then .loadFailed .reallocFailed
      else .loadFailed .truncatedBody := by
  have h32 := readU32_lt hlen
  have hhl : (stream.take sizeofVfct).length = sizeofVfct := by simp [hpre]
  have hreq := bodyRequest_eq h76 h32
  have hbl : ((stream.drop sizeofVfct).take (tbl_size - sizeofVfct)).length
      = stream.length - sizeofVfct := by
    simp only [List.length_take, List.length_drop]
    omega
  have hlen1 : readU32 (stream.take sizeofVfct) offTableLength = some tbl_size := by
    rw [readU32_take (by decide) hpre]; exact hlen
  obtain ⟨off, hoff⟩ := readU32_some_of_le (stream.take sizeofVfct) (offVBIOSImageOffset) (by rw [hhl]; decide)
  have hover : ¬ ((stream.drop sizeofVfct).take (tbl_size - sizeofVfct) ≠ [] ∧
      tbl_size < sizeofVfct + (stream.length - sizeofVfct)) := by
    intro h; omega
  have hne : stream.length - sizeofVfct ≠ tbl_size - sizeofVfct := by omega
  unfold main
  simp only [hopen, hhl, hlen1, hoff, hreq, hbl]
  cases env.mallocOk <;> cases env.reallocOk <;> simp [hover, hne]
  intro _ _
  omega

theorem main_of_table (env : Env) (stream : List Byte) (fuel tbl_size offset : Nat)
    (hopen : env.vfct = some stream)
    (hlen : readU32 stream offTableLength = some tbl_size)
    (hoff : readU32 stream offVBIOSImageOffset = some offset)
    (h76 : sizeofVfct ≤ tbl_size) (hfull : tbl_size ≤ stream.length) :
    main env fuel =
      if env.mallocOk = false then .loadFailed .allocFailed
      else if env.reallocOk = false then .loadFailed .reallocFailed
      else .walked (walk env.io (stream.take tbl_size) tbl_size fuel
        { offset := offset, extracted_count := 0, events := [] }) := by
  have hs : sizeofVfct ≤ stream.length := le_trans h76 hfull
  have hhl : (stream.take sizeofVfct).length = sizeofVfct := by simp [hs]
  have hlen1 : readU32 (stream.take sizeofVfct) offTableLength = some tbl_size := by
    rw [readU32_take (by decide) hs]; exact hlen
  have hoff1 : readU32 (stream.take sizeofVfct) offVBIOSImageOffset = some offset := by
    rw [readU32_take (by decide) hs]; exact hoff
  cases hm : env.mallocOk with
  | false =>
    unfold main
    simp [hopen, hm]
  | true =>
    cases hr : env.reallocOk with
    | false =>
      unfold main
      simp [hopen, hm, hr, hhl, hlen1, hoff1]
    | true =>
      rw [main_loaded env stream fuel tbl_size offset hopen hm hr hlen hoff h76 hfull]
      simp

theorem hexDigit_eq_digitChar {d : Nat} (h : d < 16) : hexDigit d = Nat.digitChar d := by
  interval_cases d <;> rfl

theorem hexDigits_eq_digits :
    ∀ (fuel n : Nat), 0 < n → n < 16 ^ fuel →
      hexDigits fuel n = (Nat.digits 16 n).reverse.map hexDigit := by
  intro fuel
  induction fuel with
  | zero =>
    intro n hpos hlt
    simp at hlt
    omega
  | succ fuel ih =>
    intro n hpos hlt
    by_cases h16 : n < 16
    · have hd : Nat.digits 16 n = [n] := Nat.digits_of_lt 16 n (by omega) h16
      simp [hexDigits, h16, hd]
    · have hd : Nat.digits 16 n = n % 16 :: Nat.digits 16 (n / 16) :=
        Nat.digits_def' (by norm_num) hpos
      have hq : n / 16 < 16 ^ fuel := by
        apply Nat.div_lt_of_lt_mul
        rw [pow_succ] at hlt
        omega
      have hrec := ih (n / 16) (by omega) hq
      simp [hexDigits, h16, hd, hrec]

theorem fmtHex_eq_specHex {n : Nat} (h : n < 2 ^ 32) : fmtHex n = specHex n := by
  unfold fmtHex specHex
  rw [Nat.mod_eq_of_lt h]
  by_cases h0 : n = 0
  · subst h0
    rfl
  · rw [if_neg h0, hexDigits_eq_digits 8 n (by omega) (by norm_num; omega)]
    congr 1
    apply List.map_congr_left
    intro d hd
    exact hexDigit_eq_digitChar (Nat.digits_lt_base (by norm_num) (List.mem_reverse.mp hd))

theorem vbiosName_eq_specName {v d : Nat} (hv : v < 2 ^ 32) (hd : d < 2 ^ 32) :
    vbiosName v d = specName v d := by
  unfold vbiosName specName
  rw [fmtHex_eq_specHex hv, fmtHex_eq_specHex hd]

theorem hexDigitValue_hexDigit {d : Nat} (h : d < 16) : hexDigitValue (hexDigit d) = d := by
  interval_cases d <;> decide

theorem hexValue_append (cs : List Char) (c : Char) :
    hexValue (cs ++ [c]) = 16 * hexValue cs + hexDigitValue c := by
  unfold hexValue
  rw [List.foldl_append]
  rfl

theorem hexValue_hexDigits :
    ∀ (fuel n : Nat), n < 16 ^ fuel → hexValue (hexDigits fuel n) = n := by
  intro fuel
  induction fuel with
  | zero =>
    intro n hlt
    simp at hlt
    subst hlt
    rfl
  | succ fuel ih =>
    intro n hlt
    by_cases h16 : n < 16
    · simp only [hexDigits, h16, if_true]
      have := hexValue_append [] (hexDigit n)
      simp only [List.nil_append] at this
      rw [this, hexDigitValue_hexDigit h16]
      simp [hexValue]
    · have hq : n / 16 < 16 ^ fuel := by
        apply Nat.div_lt_of_lt_mul
        rw [pow_succ] at hlt
        omega
      simp only [hexDigits, h16, if_false]
      rw [hexValue_append, ih _ hq, hexDigitValue_hexDigit (Nat.mod_lt _ (by norm_num))]
      omega

theorem hexDigit_ne_underscore (d : Nat) : hexDigit d ≠ '_' := by
  unfold hexDigit
  split <;> decide

theorem underscore_not_mem_hexDigits :
    ∀ (fuel n : Nat), '_' ∉ hexDigits fuel n := by
  intro fuel
  induction fuel with
  | zero => intro n; simp [hexDigits]
  | succ fuel ih =>
    intro n
    by_cases h16 : n < 16
    · simp only [hexDigits, h16, if_true, List.mem_singleton]
      exact fun h => hexDigit_ne_underscore n h.symm
    · simp only [hexDigits, h16, if_false, List.mem_append, List.mem_singleton, not_or]
      exact ⟨ih _, fun h => hexDigit_ne_underscore _ h.symm⟩

theorem append_cons_inj_of_not_mem {α : Type} {x : α} :
    ∀ {a a1 b b1 : List α}, x ∉ a → x ∉ a1 → a ++ x :: b = a1 ++ x :: b1 →
      a = a1 ∧ b = b1 := by
  intro a
  induction a with
  | nil =>
    intro a1 b b1 _ ha1 h
    cases a1 with
    | nil => simpa using h
    | cons y ys =>
      simp only [List.nil_append, List.cons_append, List.cons.injEq] at h
      exact absurd (h.1 ▸ List.mem_cons_self _ _) ha1
  | cons z zs ih =>
    intro a1 b b1 ha ha1 h
    cases a1 with
    | nil =>
      simp only [List.nil_append, List.cons_append, List.cons.injEq] at h
      exact absurd (h.1 ▸ List.mem_cons_self _ _) ha
    | cons y ys =>
      simp only [List.cons_append, List.cons.injEq] at h
      obtain ⟨e1, e2⟩ := ih (fun hm => ha (List.mem_cons_of_mem _ hm))
        (fun hm => ha1 (List.mem_cons_of_mem _ hm)) h.2
      exact ⟨by rw [h.1, e1], e2⟩

theorem vbiosName_data (v d : Nat) :
    (vbiosName v d).data
      = "vbios_".data ++ (hexDigits 8 (v % 2 ^ 32)
          ++ '_' :: (hexDigits 8 (d % 2 ^ 32) ++ ".bin".data)) := by
  simp [vbiosName, fmtHex, String.data_append]

theorem vbiosName_inj {v d v1 d1 : Nat} (hv : v < 2 ^ 32) (hd : d < 2 ^ 32)
    (hv1 : v1 < 2 ^ 32) (hd1 : d1 < 2 ^ 32) (h : vbiosName v d = vbiosName v1 d1) :
    v = v1 ∧ d = d1 := by
  have hdata := congrArg String.data h
  rw [vbiosName_data, vbiosName_data, Nat.mod_eq_of_lt hv, Nat.mod_eq_of_lt hd,
    Nat.mod_eq_of_lt hv1, Nat.mod_eq_of_lt hd1] at hdata
  have h1 := List.append_cancel_left hdata
  obtain ⟨e1, e2⟩ := append_cons_inj_of_not_mem (underscore_not_mem_hexDigits 8 v)
    (underscore_not_mem_hexDigits 8 v1) h1
  have e3 := List.append_cancel_right e2
  have k1 := congrArg hexValue e1
  have k2 := congrArg hexValue e3
  rw [hexValue_hexDigits 8 v (by norm_num; omega),
    hexValue_hexDigits 8 v1 (by norm_num; omega)] at k1
  rw [hexValue_hexDigits 8 d (by norm_num; omega),
    hexValue_hexDigits 8 d1 (by norm_num; omega)] at k2
  exact ⟨k1, k2⟩

/-! ## Lemmas on decoded headers -/

theorem readU16_lt {buf : List Byte} {i v : Nat} (h : readU16 buf i = some v) : v < 65536 := by
  unfold readU16 at h
  split at h
  · have h0 := byteAt_lt buf i
    have h1 := byteAt_lt buf (i + 1)
    simp only [Option.some.injEq] at h
    omega
  · simp at h

theorem walk_headers (io : Nat → IoResult) (buf : List Byte) (tbl_size : Nat) :
    ∀ (fuel : Nat) (s : WalkState), HeadersFromTable buf s.events →
      HeadersFromTable buf (walk io buf tbl_size fuel s).events := by
  intro fuel
  induction fuel with
  | zero =>
    intro s hs
    by_cases hlt : s.offset < tbl_size
    · rw [walk_zero _ _ _ _ hlt]; exact hs
    · rw [walk_exit _ _ _ _ _ hlt]; exact hs
  | succ fuel ih =>
    intro s hs
    by_cases hlt : s.offset < tbl_size
    · rw [walk_succ _ _ _ _ _ hlt]
      cases hb : loopBody io buf s with
      | next t =>
        obtain ⟨e, rfl, hc, hl, -, hv, hd, hn, -, -⟩ := loopBody_next hb
        apply ih
        intro x hx
        rcases List.mem_append.mp hx with hx | hx
        · exact hs x hx
        · have hxe : x = e := by simpa using hx
          subst hxe
          rw [hc]
          exact ⟨hv, hd, hl, hn⟩
      | stop => exact hs
      | fault events =>
        show HeadersFromTable buf events
        rcases loopBody_fault hb with e | ⟨x, e, hc, -, hv, hd, hl, hn⟩
        · rw [e]; exact hs
        · rw [e]
          intro y hy
          rcases List.mem_append.mp hy with hy | hy
          · exact hs y hy
          · have hyx : y = x := by simpa using hy
            subst hyx
            rw [hc]
            exact ⟨hv, hd, hl, hn⟩
    · rw [walk_exit _ _ _ _ _ hlt]; exact hs

theorem main_headers (env : Env) (fuel : Nat) (e : Event)
    (he : e ∈ trace (main env fuel)) :
    e.vendorID < 65536 ∧ e.deviceID < 65536 ∧ e.name = vbiosName e.vendorID e.deviceID := by
  cases hmain : main env fuel with
  | loadFailed x => rw [hmain] at he; simp [trace] at he
  | loadOverrun => rw [hmain] at he; simp [trace] at he
  | walked r =>
    rw [hmain] at he
    obtain ⟨buf, tbl_size, offset, rfl⟩ := main_walked hmain
    have h := walk_headers env.io buf tbl_size fuel ⟨offset, 0, []⟩
      (by intro x hx; simp at hx) e he
    exact ⟨readU16_lt h.1, readU16_lt h.2.1, h.2.2.2⟩

theorem chainAt_ids {buf : List Byte} :
    ∀ {recs : List ImageRecord} {c : Nat}, chainAt buf c recs →
      ∀ r ∈ recs, r.vendorID < 65536 ∧ r.deviceID < 65536 := by
  intro recs
  induction recs with
  | nil => intro c _ r hr; simp at hr
  | cons q qs ih =>
    intro c hc r hr
    obtain ⟨hv, hd, -, -, -, hrest⟩ := hc
    rcases List.mem_cons.mp hr with hr | hr
    · subst hr
      exact ⟨readU16_lt hv, readU16_lt hd⟩
    · exact ih hrest r hr

theorem main_chain (env : Env) (stream : List Byte) (recs : List ImageRecord)
    (fuel tbl_size offset : Nat)
    (hopen : env.vfct = some stream) (hm : env.mallocOk = true) (hr : env.reallocOk = true)
    (hio : ∀ k, env.io k = .full)
    (hlen : readU32 stream offTableLength = some tbl_size)
    (hoff : readU32 stream offVBIOSImageOffset = some offset)
    (h76 : sizeofVfct ≤ tbl_size) (hfull : tbl_size ≤ stream.length)
    (hchain : chainAt (stream.take tbl_size) offset recs)
    (hfuel : recs.length < fuel) :
    main env fuel = .walked ⟨.done, recs.length, chainEvents offset recs⟩ := by
  have h32 := readU32_lt hlen
  have hbl : (stream.take tbl_size).length = tbl_size := by simp [hfull]
  rw [main_loaded env stream fuel tbl_size offset hopen hm hr hlen hoff h76 hfull]
  have hw := walk_chain env.io (stream.take tbl_size) hio (by omega) recs fuel
    ⟨offset, 0, []⟩ hchain hfuel
  rw [hbl] at hw
  rw [hw]
  simp

/-! ## Lemmas on the working directory -/

theorem foldl_store_other (l : List (String × List Byte)) (fs : FileSystem) (n : String)
    (h : ∀ a ∈ l, a.1 ≠ n) :
    l.foldl (fun f a => f.store a.1 a.2) fs n = fs n := by
  induction l generalizing fs with
  | nil => rfl
  | cons a l ih =>
    rw [List.foldl_cons, ih _ (fun b hb => h b (List.mem_cons_of_mem _ hb))]
    have : n ≠ a.1 := fun e => h a (List.mem_cons_self _ _) e.symm
    simp [FileSystem.store, this]

theorem foldl_store_last (l1 l2 : List (String × List Byte)) (fs : FileSystem)
    (n : String) (bytes : List Byte) (h : ∀ a ∈ l2, a.1 ≠ n) :
    (l1 ++ (n, bytes) :: l2).foldl (fun f a => f.store a.1 a.2) fs n = some bytes := by
  rw [List.foldl_append, List.foldl_cons, foldl_store_other l2 _ n h]
  simp [FileSystem.store]

theorem foldl_store_congr (l : List (String × List Byte)) (fs g : FileSystem)
    (h : ∀ n, (∀ a ∈ l, a.1 ≠ n) → fs n = g n) :
    l.foldl (fun f a => f.store a.1 a.2) fs = l.foldl (fun f a => f.store a.1 a.2) g := by
  induction l generalizing fs g with
  | nil =>
    funext n
    exact h n (by intro a ha; simp at ha)
  | cons a l ih =>
    rw [List.foldl_cons, List.foldl_cons]
    apply ih
    intro n hn
    by_cases e : n = a.1
    · simp [FileSystem.store, e]
    · simp only [FileSystem.store, e, if_false]
      apply h
      intro b hb
      rcases List.mem_cons.mp hb with hb | hb
      · subst hb; exact fun x => e x.symm
      · exact hn b hb

theorem directoryAfter_again (fs d : FileSystem) (o : Outcome)
    (h : directoryAfter fs o = some d) : directoryAfter d o = some d := by
  unfold directoryAfter at h ⊢
  cases hs : exitStatus o with
  | none => rw [hs] at h; cases h
  | some st =>
    rw [hs] at h
    simp only [Option.some.injEq] at h ⊢
    rw [← h]
    unfold filesAfter
    apply foldl_store_congr
    intro n hn
    exact foldl_store_other (artifacts o) fs n hn

/-! ## Lemmas on reachable states -/

theorem stepN_succ_of_next {io : Nat → IoResult} {buf : List Byte} {tbl_size : Nat}
    {s t : WalkState} (n : Nat) (hlt : s.offset < tbl_size) (hb : loopBody io buf s = .next t) :
    stepN io buf tbl_size (n + 1) s = stepN io buf tbl_size n t := by
  simp only [stepN, hlt, if_true, hb]

theorem walk_of_stepN (io : Nat → IoResult) (buf : List Byte) (tbl_size : Nat) :
    ∀ (n k : Nat) (s0 s : WalkState), stepN io buf tbl_size n s0 = some s →
      walk io buf tbl_size (n + k) s0 = walk io buf tbl_size k s := by
  intro n
  induction n with
  | zero =>
    intro k s0 s h
    simp only [stepN, Option.some.injEq] at h
    subst h
    simp
  | succ n ih =>
    intro k s0 s h
    by_cases hlt : s0.offset < tbl_size
    · cases hb : loopBody io buf s0 with
      | next t =>
        rw [stepN_succ_of_next n hlt hb] at h
        have e : n + 1 + k = (n + k) + 1 := by omega
        rw [e, walk_succ _ _ _ _ _ hlt, hb]
        exact ih k t s h
      | stop => simp [stepN, hlt, hb] at h
      | fault events => simp [stepN, hlt, hb] at h
    · simp [stepN, hlt] at h

theorem stepN_events_length (io : Nat → IoResult) (buf : List Byte) (tbl_size : Nat) :
    ∀ (n : Nat) (s0 s : WalkState), stepN io buf tbl_size n s0 = some s →
      s.events.length = s0.events.length + n := by
  intro n
  induction n with
  | zero =>
    intro s0 s h
    simp only [stepN, Option.some.injEq] at h
    subst h
    rfl
  | succ n ih =>
    intro s0 s h
    by_cases hlt : s0.offset < tbl_size
    · cases hb : loopBody io buf s0 with
      | next t =>
        rw [stepN_succ_of_next n hlt hb] at h
        obtain ⟨e, rfl, -⟩ := loopBody_next hb
        rw [ih _ s h]
        simp
        omega
      | stop => simp [stepN, hlt, hb] at h
      | fault events => simp [stepN, hlt, hb] at h
    · simp [stepN, hlt] at h

theorem loopBody_in_bounds (io : Nat → IoResult) (buf : List Byte) (s : WalkState) {len : Nat}
    (hl : readU32 buf (s.offset + offImageLength) = some len)
    (h0 : len ≠ 0)
    (hfit : s.offset + sizeofImageHeader + len ≤ buf.length) :
    ∃ t, loopBody io buf s = .next t := by
  have hb := readU32_bound hl
  simp only [offImageLength] at hb
  obtain ⟨x0, hx0⟩ := readU32_some_of_le (buf) (s.offset + offPCIBus)
    (by simp only [offPCIBus]; omega)
  obtain ⟨x1, hx1⟩ := readU32_some_of_le (buf) (s.offset + offPCIDevice)
    (by simp only [offPCIDevice]; omega)
  obtain ⟨x2, hx2⟩ := readU32_some_of_le (buf) (s.offset + offPCIFunction)
    (by simp only [offPCIFunction]; omega)
  obtain ⟨v, hv⟩ := readU16_some_of_le (buf) (s.offset + offVendorID)
    (by simp only [offVendorID]; omega)
  obtain ⟨d, hd⟩ := readU16_some_of_le (buf) (s.offset + offDeviceID)
    (by simp only [offDeviceID]; omega)
  have hp : readBytes buf (s.offset + sizeofImageHeader) len
      = some ((buf.drop (s.offset + sizeofImageHeader)).take len) := by
    unfold readBytes
    rw [if_pos hfit]
  unfold loopBody
  simp only [hl, h0, hv, hd, hx0, hx1, hx2, hp]
  cases io s.events.length with
  | createFail => exact ⟨_, rfl⟩
  | short n =>
    simp only [if_false]
    split <;> exact ⟨_, rfl⟩
  | full =>
    simp only [if_false]
    split <;> exact ⟨_, rfl⟩

theorem walk_safe (io : Nat → IoResult) (buf : List Byte) (h32 : buf.length < 2 ^ 32) :
    ∀ (fuel : Nat) (s : WalkState),
      (∀ n s1, stepN io buf buf.length n s = some s1 → s1.offset < buf.length →
        fitsAt sizeofImageHeader buf buf.length s1.offset) →
      (buf.length - s.offset) / 29 < fuel →
      ∃ new : List Event,
        (walk io buf buf.length fuel s).status = .done ∧
        (walk io buf buf.length fuel s).events = s.events ++ new ∧
        new.length ≤ (buf.length - s.offset) / 29 ∧
        (new.map Event.cursor).Pairwise (fun a b => a < b) ∧
        ∀ e ∈ new, s.offset ≤ e.cursor ∧
          e.cursor + sizeofImageHeader + e.imageLength ≤ buf.length ∧
          advance e.cursor e.imageLength = e.cursor + sizeofImageHeader + e.imageLength := by
  intro fuel
  induction fuel with
  | zero => intro s _ hf; omega
  | succ fuel ih =>
    intro s hwf hfuel
    by_cases hlt : s.offset < buf.length
    · obtain ⟨hhdr, hpay⟩ := hwf 0 s rfl hlt
      have h28 : sizeofImageHeader = 28 := rfl
      obtain ⟨len, hl⟩ := readU32_some_of_le buf (s.offset + offImageLength)
        (by simp only [offImageLength]; omega)
      by_cases h0 : len = 0
      · subst h0
        refine ⟨[], ?_, ?_, by simp, by simp, by simp⟩
        · rw [walk_succ _ _ _ _ _ hlt, loopBody_sentinel _ _ _ hl]
        · rw [walk_succ _ _ _ _ _ hlt, loopBody_sentinel _ _ _ hl]
          simp
      · have hp := hpay len (by rw [hl]; rfl) h0
        obtain ⟨t, hb⟩ := loopBody_in_bounds io buf s hl h0 hp
        obtain ⟨e, ht, hc, hle, -, -, -, -, -, -⟩ := loopBody_next hb
        have elen : e.imageLength = len := Option.some.inj (hle.symm.trans hl)
        have hadv : advance s.offset len = s.offset + sizeofImageHeader + len :=
          advance_eq (by omega)
        have hto : t.offset = s.offset + sizeofImageHeader + len := by
          rw [ht, elen]; exact hadv
        have hte : t.events = s.events ++ [e] := by rw [ht]
        have hwf1 : ∀ n s1, stepN io buf buf.length n t = some s1 → s1.offset < buf.length →
            fitsAt sizeofImageHeader buf buf.length s1.offset := by
          intro n s1 hs1 hlt1
          exact hwf (n + 1) s1 (by rw [stepN_succ_of_next n hlt hb]; exact hs1) hlt1
        have hlen0 : 0 < len := Nat.pos_of_ne_zero h0
        obtain ⟨new, hst, hev, hcount, hsorted, hall⟩ := ih t hwf1 (by rw [hto]; omega)
        refine ⟨e :: new, ?_, ?_, ?_, ?_, ?_⟩
        · rw [walk_succ _ _ _ _ _ hlt, hb]; exact hst
        · rw [walk_succ _ _ _ _ _ hlt, hb]
          simp only [hev, hte, List.append_assoc, List.singleton_append]
        · rw [hto] at hcount
          simp only [List.length_cons]
          omega
        · simp only [List.map_cons, List.pairwise_cons]
          refine ⟨?_, hsorted⟩
          intro c1 hc1
          obtain ⟨e1, he1, rfl⟩ := List.mem_map.mp hc1
          have := (hall e1 he1).1
          omega
        · intro x hx
          rcases List.mem_cons.mp hx with hx | hx
          · subst hx
            rw [hc, elen]
            exact ⟨le_refl _, hp, hadv⟩
          · obtain ⟨a, b, c⟩ := hall x hx
            exact ⟨by omega, b, c⟩
    · refine ⟨[], ?_, ?_, by simp, by simp, by simp⟩
      · rw [walk_exit _ _ _ _ _ hlt]
      · rw [walk_exit _ _ _ _ _ hlt]
        simp

/-! ## Lemmas on little-endian values and on the header read -/

theorem byteAt_drop (buf : List Byte) (i k : Nat) :
    byteAt buf (i + k) = byteAt (buf.drop i) k := by
  unfold byteAt
  simp [List.getD_eq_getElem?_getD, List.getElem?_drop]

theorem readU32_eq_leValue {buf : List Byte} {i v : Nat} (h : readU32 buf i = some v) :
    v = leValue ((buf.drop i).take 4) := by
  unfold readU32 at h
  split at h
  · rename_i hb
    simp only [Option.some.injEq] at h
    have e0 : byteAt buf i = byteAt (buf.drop i) 0 := byteAt_drop buf i 0
    rw [e0, byteAt_drop buf i 1, byteAt_drop buf i 2, byteAt_drop buf i 3] at h
    have hl : 4 ≤ (buf.drop i).length := by simp; omega
    generalize buf.drop i = l at h hl
    match l, hl with
    | b0 :: b1 :: b2 :: b3 :: rest, _ =>
      simp [byteAt, leValue] at h ⊢
      omega
  · simp at h

theorem readU16_eq_leValue {buf : List Byte} {i v : Nat} (h : readU16 buf i = some v) :
    v = leValue ((buf.drop i).take 2) := by
  unfold readU16 at h
  split at h
  · rename_i hb
    simp only [Option.some.injEq] at h
    have e0 : byteAt buf i = byteAt (buf.drop i) 0 := byteAt_drop buf i 0
    rw [e0, byteAt_drop buf i 1] at h
    have hl : 2 ≤ (buf.drop i).length := by simp; omega
    generalize buf.drop i = l at h hl
    match l, hl with
    | b0 :: b1 :: rest, _ =>
      simp [byteAt, leValue] at h ⊢
      omega
  · simp at h

theorem main_truncated_header (env : Env) (stream : List Byte) (fuel : Nat)
    (hopen : env.vfct = some stream) (hshort : stream.length < sizeofVfct) :
    main env fuel =
      if env.mallocOk = false then .loadFailed .allocFailed
      else .loadFailed .truncatedHeader := by
  have hhl : (stream.take sizeofVfct).length ≠ sizeofVfct := by
    simp only [List.length_take]
    omega
  unfold main
  simp only [hopen]
  cases env.mallocOk <;> simp [hhl]
  intro h
  omega

theorem stepN_succ_bind (io : Nat → IoResult) (buf : List Byte) (tbl_size : Nat) :
    ∀ (n : Nat) (s : WalkState),
      stepN io buf tbl_size (n + 1) s
        = (stepN io buf tbl_size n s).bind (stepN io buf tbl_size 1) := by
  intro n
  induction n with
  | zero => intro s; rfl
  | succ n ih =>
    intro s
    by_cases hlt : s.offset < tbl_size
    · cases hb : loopBody io buf s with
      | next t =>
        rw [stepN_succ_of_next (n + 1) hlt hb, stepN_succ_of_next n hlt hb]
        exact ih t
      | stop => simp [stepN, hlt, hb]
      | fault events => simp [stepN, hlt, hb]
    · simp [stepN, hlt]

theorem stepN_none_mono (io : Nat → IoResult) (buf : List Byte) (tbl_size : Nat)
    (s : WalkState) {n : Nat} (h : stepN io buf tbl_size n s = none) :
    ∀ m, n ≤ m → stepN io buf tbl_size m s = none := by
  intro m hm
  induction m with
  | zero =>
    have : n = 0 := by omega
    subst this
    exact h
  | succ m ih =>
    by_cases e : n = m + 1
    · subst e; exact h
    · rw [stepN_succ_bind, ih (by omega)]
      rfl

theorem stepN_one_sentinel (io : Nat → IoResult) (buf : List Byte) (tbl_size : Nat)
    (s : WalkState) (h : readU32 buf (s.offset + offImageLength) = some 0) :
    stepN io buf tbl_size 1 s = none := by
  by_cases hlt : s.offset < tbl_size
  · simp [stepN, hlt, loopBody_sentinel io buf s h]
  · simp [stepN, hlt]

/-! # The claims -/

/-! ## C1: bounds safety of the record walker -/

/-- C1 (bounds safety), as the code behaves: a record whose non-zero
`ImageLength` reaches past the end of the table does not stop the loop.
Whenever its file can be created, the file is created and `fwrite` is handed
the declared number of bytes: the walker takes the out-of-bounds branch, with
the created file as the last event of the trace. -/
theorem oversized_record_reads_past_table (io : Nat → IoResult) (buf : List Byte)
    (s : WalkState) (len fuel : Nat)
    (hl : readU32 buf (s.offset + offImageLength) = some len)
    (h0 : len ≠ 0)
    (hover : buf.length < s.offset + sizeofImageHeader + len)
    (hio : io s.events.length ≠ .createFail) :
    ∃ e : Event,
      walk io buf buf.length (fuel + 1) s
        = ⟨.outOfBounds, s.extracted_count, s.events ++ [e]⟩ ∧
      e.cursor = s.offset ∧ e.imageLength = len ∧ e.result = .faulted :=
  walk_oversized io buf s len fuel hl h0 hover hio

/-- C1, failing input: the table of `0x6C` bytes whose record at `0x4C`
declares 256 payload bytes. -/
theorem oversized_record_reads_past_table_witness :
    readU32 oversizedTable (76 + offImageLength) = some 256 ∧
    oversizedTable.length < 76 + 32 + 256 ∧
    (∃ e : Event,
      walk allFull oversizedTable oversizedTable.length 1 ⟨76, 0, []⟩
        = ⟨.outOfBounds, 0, [] ++ [e]⟩ ∧
      e.cursor = 76 ∧ e.imageLength = 256 ∧ e.result = .faulted) ∧
    main (envOf oversizedTable allFull) 1
      = .walked ⟨.outOfBounds, 0,
          [⟨0x4C, 0x1002, 0x1586, "vbios_1002_1586.bin", 0x100, .faulted⟩]⟩ :=
  ⟨by decide, by decide,
    oversized_record_reads_past_table allFull oversizedTable ⟨76, 0, []⟩ 256 0
      (by decide) (by decide) (by decide) (by decide),
    by decide⟩

/-! ## C2: termination of the record walker -/

/-- C2 (termination), as the code behaves: for `ImageLength = 2 ^ 32 - 28`
the two additions on the 32-bit cursor give back the same cursor, and when
the output file cannot be created the loop over `wrapTable` is still running
after any number of iterations, without ever reading outside the table. -/
theorem wrapping_record_never_terminates :
    advance 76 0xFFFFFFE4 = 76 ∧
    ∀ fuel : Nat, ∃ events : List Event,
      main (envOf wrapTable allCreateFail) fuel = .walked ⟨.outOfFuel, 0, events⟩ := by
  refine ⟨by decide, ?_⟩
  intro fuel
  have hload := main_loaded (envOf wrapTable allCreateFail) wrapTable fuel 104 76 rfl rfl rfl
    (by decide) (by decide) (by decide) (by decide)
  rw [hload]
  have key : ∀ (n : Nat) (s : WalkState), s.offset = 76 →
      ∃ events, walk allCreateFail (wrapTable.take 104) 104 n s
        = ⟨.outOfFuel, s.extracted_count, events⟩ := by
    intro n
    induction n with
    | zero =>
      intro s hs
      exact ⟨s.events, walk_zero _ _ _ _ (by omega)⟩
    | succ n ih =>
      intro s hs
      have hv : readU16 (wrapTable.take 104) (s.offset + offVendorID) = some 0x1002 := by
        rw [hs]; decide
      have hd : readU16 (wrapTable.take 104) (s.offset + offDeviceID) = some 0x1586 := by
        rw [hs]; decide
      have hl : readU32 (wrapTable.take 104) (s.offset + offImageLength) = some 0xFFFFFFE4 := by
        rw [hs]; decide
      have hadv : advance s.offset 0xFFFFFFE4 = 76 := by rw [hs]; decide
      rw [walk_succ _ _ _ _ _ (by omega),
        loopBody_createFail allCreateFail _ s hv hd hl (by decide) rfl]
      exact ih _ hadv
  obtain ⟨events, hev⟩ := key fuel ⟨76, 0, []⟩ rfl
  exact ⟨events, congrArg Outcome.walked hev⟩

/-! ## C3: extraction round trip -/

/-- C3 (round trip), with the record layout of the code: a 28-byte
`VFCT_IMAGE_HEADER` with `ImageLength` at offset 24, the payload right after
it. For a loaded table whose chain at `VBIOSImageOffset` is `recs`, with
every file created and written in full, the run ends normally after one
write per record, in chain order, each named from its identifiers and
holding its payload, and the count is the number of records. -/
theorem extraction_round_trip (env : Env) (stream : List Byte) (recs : List ImageRecord)
    (fuel tbl_size offset : Nat)
    (hopen : env.vfct = some stream) (hm : env.mallocOk = true) (hr : env.reallocOk = true)
    (hio : ∀ k, env.io k = .full)
    (hlen : readU32 stream offTableLength = some tbl_size)
    (hoff : readU32 stream offVBIOSImageOffset = some offset)
    (h76 : sizeofVfct ≤ tbl_size) (hfull : tbl_size ≤ stream.length)
    (hchain : chainAt (stream.take tbl_size) offset recs)
    (hfuel : recs.length < fuel) :
    main env fuel = .walked ⟨.done, recs.length, chainEvents offset recs⟩ ∧
    (chainEvents offset recs).length = recs.length ∧
    artifacts (main env fuel)
      = recs.map (fun r => (vbiosName r.vendorID r.deviceID, r.payload)) := by
  have h32 := readU32_lt hlen
  have hbl : (stream.take tbl_size).length = tbl_size := by simp [hfull]
  have hmain : main env fuel = .walked ⟨.done, recs.length, chainEvents offset recs⟩ := by
    rw [main_loaded env stream fuel tbl_size offset hopen hm hr hlen hoff h76 hfull]
    have hw := walk_chain env.io (stream.take tbl_size) hio (by omega) recs fuel
      ⟨offset, 0, []⟩ hchain hfuel
    rw [hbl] at hw
    rw [hw]
    simp
  refine ⟨hmain, ?_, ?_⟩
  · exact length_chainEvents offset recs
  · rw [hmain]
    exact artifacts_chainEvents offset recs

/-- C3, witness: Scenario A with the table ending at the payload
(`TableLength = 0x6C`) gives the single file `vbios_1002_1586.bin` holding
`DE AD BE EF`. -/
theorem extraction_round_trip_witness :
    chainAt (scenarioA.take 0x6C) 0x4C [recordA] ∧
    main (envOf scenarioA allFull) 2
      = .walked ⟨.done, 1,
          [⟨0x4C, 0x1002, 0x1586, "vbios_1002_1586.bin", 4, .written [0xDE, 0xAD, 0xBE, 0xEF]⟩]⟩ ∧
    artifacts (main (envOf scenarioA allFull) 2)
      = [("vbios_1002_1586.bin", [0xDE, 0xAD, 0xBE, 0xEF])] := by
  have h := extraction_round_trip (envOf scenarioA allFull) scenarioA [recordA] 2 0x6C 0x4C
    rfl rfl rfl (fun _ => rfl) (by decide) (by decide) (by decide) (by decide) (by decide)
    (by decide)
  exact ⟨by decide, h.1, h.2.2⟩

/-- C3, as stated, fails: in a table of `0x70` bytes with the record at
`0x4C` and the payload `DE AD BE EF` behind a 32-byte header, the code finds
`ImageLength` at `0x64` and the payload at `0x68`. With the length stored in
the last four header bytes it sees a zero length and writes nothing; with
the length at `0x64` and four bytes of padding it writes the padding and then
decodes a header at `0x6C` that lies outside the table; with the code's own
28-byte header in `0x70` bytes it writes the file and then decodes that same
header. In no layout does the run end normally with the file written. -/
theorem scenarioA_as_stated_fails :
    main (envOf scenarioASpec allFull) 4 = .walked ⟨.done, 0, []⟩ ∧
    exitStatus (main (envOf scenarioASpec allFull) 4) = some 1 ∧
    main (envOf scenarioAPadded allFull) 4
      = .walked ⟨.outOfBounds, 1,
          [⟨0x4C, 0x1002, 0x1586, "vbios_1002_1586.bin", 4, .written [0, 0, 0, 0]⟩]⟩ ∧
    main (envOf scenarioATail allFull) 4
      = .walked ⟨.outOfBounds, 1,
          [⟨0x4C, 0x1002, 0x1586, "vbios_1002_1586.bin", 4, .written [0xDE, 0xAD, 0xBE, 0xEF]⟩]⟩ ∧
    exitStatus (main (envOf scenarioATail allFull) 4) = none := by
  refine ⟨by decide, by decide, by decide, by decide, by decide⟩

/-! ## C4: truncation tolerance -/

/-- C4 (truncation tolerance), as the code behaves: after the well-formed
record of `truncatedTailTable` the loop decodes the record that declares 256
bytes where 4 remain, creates its file and hands `fwrite` bytes outside the
table. The run does not end with the summary for one extracted file. -/
theorem oversized_last_record_not_skipped :
    main (envOf truncatedTailTable allFull) 4
      = .walked ⟨.outOfBounds, 1,
          [⟨0x4C, 0x1002, 0x1586, "vbios_1002_1586.bin", 4, .written [0xDE, 0xAD, 0xBE, 0xEF]⟩,
            ⟨0x6C, 0x1002, 0x1587, "vbios_1002_1587.bin", 0x100, .faulted⟩]⟩ ∧
    exitStatus (main (envOf truncatedTailTable allFull) 4) = none ∧
    readU32 truncatedTailTable (0x6C + offImageLength) = some 0x100 ∧
    truncatedTailTable.length = 0x8C := by
  refine ⟨by decide, by decide, by decide, by decide⟩

/-! ## C5: a truncated body is fatal -/

/-- C5 (truncated body): when the stream holds the 76-byte prefix, the prefix
declares `TableLength = L ≥ 76` and the stream holds fewer than `L` bytes,
the loader returns 1: the loop is not entered and no file is created. With
memory available the failing step is the read of the body. -/
theorem truncated_body_is_fatal (env : Env) (stream : List Byte) (fuel tbl_size : Nat)
    (hopen : env.vfct = some stream)
    (hpre : sizeofVfct ≤ stream.length)
    (hlen : readU32 stream offTableLength = some tbl_size)
    (h76 : sizeofVfct ≤ tbl_size) (hshort : stream.length < tbl_size) :
    (∃ e, main env fuel = .loadFailed e) ∧
    exitStatus (main env fuel) = some 1 ∧
    artifacts (main env fuel) = [] ∧
    trace (main env fuel) = [] ∧
    (env.mallocOk = true → env.reallocOk = true →
      main env fuel = .loadFailed .truncatedBody) := by
  have h := main_truncated_body env stream fuel tbl_size hopen hpre hlen h76 hshort
  rw [h]
  cases env.mallocOk <;> cases env.reallocOk <;> simp [exitStatus, artifacts, trace]

/-- C5, witness: Scenario B, declared length `0x70`, stream of `0x60` bytes. -/
theorem truncated_body_is_fatal_witness :
    readU32 scenarioB offTableLength = some 0x70 ∧ scenarioB.length = 0x60 ∧
    main (envOf scenarioB allFull) 4 = .loadFailed .truncatedBody ∧
    exitStatus (main (envOf scenarioB allFull) 4) = some 1 ∧
    artifacts (main (envOf scenarioB allFull) 4) = [] := by
  have h := truncated_body_is_fatal (envOf scenarioB allFull) scenarioB 4 0x70 rfl
    (by decide) (by decide) (by decide) (by decide)
  exact ⟨by decide, by decide, h.2.2.2.2 rfl rfl, h.2.1, h.2.2.1⟩

/-! ## C6: a declared length below the prefix size -/

/-- C6 (invalid declared length), as the code behaves: the length is not
compared with the prefix size. For `TableLength = 40` the block is
reallocated to 40 bytes, the request `tbl_size - 76` wraps in `size_t`, and
the byte that follows the prefix in the stream is stored at index 76 of the
40-byte block. Only when nothing follows the prefix does the run return 1
unharmed. -/
theorem short_declared_length_overruns :
    readU32 shortLengthStream offTableLength = some 40 ∧
    bodyRequest 40 = 2 ^ 64 - 36 ∧
    main (envOf shortLengthStream allFull) 4 = .loadOverrun ∧
    exitStatus (main (envOf shortLengthStream allFull) 4) = none ∧
    main (envOf (vfctBlock 40 0x4C) allFull) 4 = .loadFailed .truncatedBody := by
  refine ⟨by decide, by decide, by decide, by decide, by decide⟩

/-! ## C7: the exit status reflects the extraction -/

/-- C8 (isolation of write failures), as the code behaves: the fate of a file
decides more than whether its record is counted. On `oversizedTable`, when
`fopen` fails the loop skips the record and ends normally, and when it
succeeds `fwrite` is handed bytes outside the table. On `wrapBackTable`,
when the first `fopen` fails the cursor wraps to `0x1C`, the loop decodes a
record there, writes its file and returns 0, and when it succeeds the run
faults at `0x4C`: the two runs do not visit the same records. -/
theorem create_outcome_changes_the_walk :
    main (envOf oversizedTable allCreateFail) 2
      = .walked ⟨.done, 0,
          [⟨0x4C, 0x1002, 0x1586, "vbios_1002_1586.bin", 0x100, .createFailed⟩]⟩ ∧
    exitStatus (main (envOf oversizedTable allCreateFail) 2) = some 1 ∧
    main (envOf oversizedTable allFull) 2
      = .walked ⟨.outOfBounds, 0,
          [⟨0x4C, 0x1002, 0x1586, "vbios_1002_1586.bin", 0x100, .faulted⟩]⟩ ∧
    exitStatus (main (envOf oversizedTable allFull) 2) = none ∧
    advance 0x4C 0xFFFFFFB4 = 0x1C ∧
    (trace (main (envOf wrapBackTable firstCreateFails) 4)).map Event.cursor = [0x4C, 0x1C] ∧
    (trace (main (envOf wrapBackTable firstCreateFails) 4)).map Event.name
      = ["vbios_1002_1586.bin", "vbios_0_0.bin"] ∧
    extractedCount (main (envOf wrapBackTable firstCreateFails) 4) = 1 ∧
    exitStatus (main (envOf wrapBackTable firstCreateFails) 4) = some 0 ∧
    main (envOf wrapBackTable allFull) 4
      = .walked ⟨.outOfBounds, 0,
          [⟨0x4C, 0x1002, 0x1586, "vbios_1002_1586.bin", 0xFFFFFFB4, .faulted⟩]⟩ := by
  refine ⟨by decide, by decide, by decide, by decide, by decide, by decide, by decide,
    by decide, by decide, by decide⟩

/-! ## C9: the empty table -/

/-- C9 (empty table): when the loaded table has room for 32 bytes at
`VBIOSImageOffset` and the `ImageLength` there is zero, the run creates no
file, ends normally and returns 1, whatever the other bytes of the table.
With memory available the loop is entered and left by its `break`. -/
theorem empty_table_extracts_nothing (env : Env) (stream : List Byte)
    (fuel tbl_size offset : Nat)
    (hopen : env.vfct = some stream)
    (hlen : readU32 stream offTableLength = some tbl_size)
    (hoff : readU32 stream offVBIOSImageOffset = some offset)
    (h76 : sizeofVfct ≤ tbl_size) (hfull : tbl_size ≤ stream.length)
    (hrec : offset + 32 ≤ tbl_size)
    (hzero : readU32 stream (offset + offImageLength) = some 0)
    (hfuel : 0 < fuel) :
    exitStatus (main env fuel) = some 1 ∧
    artifacts (main env fuel) = [] ∧
    extractedCount (main env fuel) = 0 ∧
    (env.mallocOk = true → env.reallocOk = true →
      main env fuel = .walked ⟨.done, 0, []⟩) := by
  have hz : readU32 (stream.take tbl_size) (offset + offImageLength) = some 0 := by
    rw [readU32_take (by simp only [offImageLength]; omega) hfull]; exact hzero
  have hw : walk env.io (stream.take tbl_size) tbl_size fuel ⟨offset, 0, []⟩
      = ⟨.done, 0, []⟩ := by
    obtain ⟨n, rfl⟩ : ∃ n, fuel = n + 1 := ⟨fuel - 1, by omega⟩
    rw [walk_succ _ _ _ _ _ (by show offset < tbl_size; omega),
      loopBody_sentinel _ _ _ hz]
  rw [main_of_table env stream fuel tbl_size offset hopen hlen hoff h76 hfull, hw]
  cases env.mallocOk <;> cases env.reallocOk <;> simp [exitStatus, artifacts, extractedCount]

/-- C9, witness: a table of `0x6C` bytes, all zero after the prefix. -/
theorem empty_table_extracts_nothing_witness :
    readU32 emptyTable (0x4C + offImageLength) = some 0 ∧
    main (envOf emptyTable allFull) 1 = .walked ⟨.done, 0, []⟩ ∧
    exitStatus (main (envOf emptyTable allFull) 1) = some 1 ∧
    artifacts (main (envOf emptyTable allFull) 1) = [] := by
  have h := empty_table_extracts_nothing (envOf emptyTable allFull) emptyTable 1 0x6C 0x4C
    rfl (by decide) (by decide) (by decide) (by decide) (by decide) (by decide) (by decide)
  exact ⟨by decide, h.2.2.2 rfl rfl, h.1, h.2.1⟩

/-! ## C10: a truncated record header -/

/-- C10 (truncated record header), as the code behaves: the loop tests only
`offset < tbl_size`. At a cursor inside the table with fewer than
`sizeof(VFCT_IMAGE_HEADER)` bytes left, the body still loads
`vhdr->ImageLength`, which lies at least partly outside the table. -/
theorem truncated_header_is_decoded (io : Nat → IoResult) (buf : List Byte) (s : WalkState)
    (fuel : Nat)
    (hlt : s.offset < buf.length)
    (hrem : buf.length - s.offset < sizeofImageHeader) :
    walk io buf buf.length (fuel + 1) s = ⟨.outOfBounds, s.extracted_count, s.events⟩ := by
  rw [walk_succ _ _ _ _ _ hlt, loopBody_truncated_header io buf s (by omega)]

/-- C10, failing input: a table of `0x50` bytes with the image offset at
`0x4C`, four bytes before the end. -/
theorem truncated_header_is_decoded_witness :
    stubTable.length - 0x4C < 32 ∧
    walk allFull stubTable stubTable.length 1 ⟨0x4C, 0, []⟩ = ⟨.outOfBounds, 0, []⟩ ∧
    main (envOf stubTable allFull) 1 = .walked ⟨.outOfBounds, 0, []⟩ :=
  ⟨by decide,
    truncated_header_is_decoded allFull stubTable ⟨0x4C, 0, []⟩ 0 (by decide) (by decide),
    by decide⟩


/-! ## C11: artifact naming -/

/-- C11 (artifact naming): for identifiers below 65536 the name built by
`snprintf` is `vbios_` followed by the lowercase hexadecimal numeral of the
vendor ID without leading zeros, `_`, the numeral of the device ID, and
`.bin`; and in every run the name of an event is that name of its two
identifiers, whatever the other fields of the record. -/
theorem artifact_name_format (vendorID deviceID : Nat)
    (hv : vendorID < 65536) (hd : deviceID < 65536) :
    vbiosName vendorID deviceID = specName vendorID deviceID ∧
    ∀ (env : Env) (fuel : Nat) (e : Event), e ∈ trace (main env fuel) →
      e.vendorID = vendorID → e.deviceID = deviceID →
      e.name = specName vendorID deviceID := by
  have h := @vbiosName_eq_specName vendorID deviceID (by omega) (by omega)
  refine ⟨h, ?_⟩
  intro env fuel e he ev ed
  rw [(main_headers env fuel e he).2.2, ev, ed]
  exact h

/-- C11, witness: `(0x1002, 0x1586)` gives `vbios_1002_1586.bin` and
`(0x2, 0xab)` gives `vbios_2_ab.bin`. -/
theorem artifact_name_format_witness :
    specName 0x1002 0x1586 = "vbios_1002_1586.bin" ∧
    specName 0x2 0xab = "vbios_2_ab.bin" ∧
    vbiosName 0x1002 0x1586 = "vbios_1002_1586.bin" ∧
    vbiosName 0x2 0xab = "vbios_2_ab.bin" ∧
    vbiosName 0 0xFFFF = "vbios_0_ffff.bin" :=
  ⟨(artifact_name_format 0x1002 0x1586 (by decide) (by decide)).1.symm.trans (by decide),
    (artifact_name_format 0x2 0xab (by decide) (by decide)).1.symm.trans (by decide),
    by decide, by decide, by decide⟩

/-! ## C12: name collisions overwrite -/

/-- C12 (name collisions): in a loaded table whose chain is well formed, with
every file created and written in full, the file named after a record that
is the last of the chain with its pair of identifiers holds exactly the
payload of that record at the end of the run, whatever records with the same
pair came before it, and every record of the chain is counted. -/
theorem last_record_wins (env : Env) (stream : List Byte) (before after : List ImageRecord)
    (r : ImageRecord) (fuel tbl_size offset : Nat) (fs : FileSystem)
    (hopen : env.vfct = some stream) (hm : env.mallocOk = true) (hr : env.reallocOk = true)
    (hio : ∀ k, env.io k = .full)
    (hlen : readU32 stream offTableLength = some tbl_size)
    (hoff : readU32 stream offVBIOSImageOffset = some offset)
    (h76 : sizeofVfct ≤ tbl_size) (hfull : tbl_size ≤ stream.length)
    (hchain : chainAt (stream.take tbl_size) offset (before ++ r :: after))
    (hlast : ∀ q ∈ after, ¬ (q.vendorID = r.vendorID ∧ q.deviceID = r.deviceID))
    (hfuel : (before ++ r :: after).length < fuel) :
    filesAfter fs (main env fuel) (vbiosName r.vendorID r.deviceID) = some r.payload ∧
    extractedCount (main env fuel) = (before ++ r :: after).length ∧
    exitStatus (main env fuel) = some 0 := by
  have hmain := main_chain env stream (before ++ r :: after) fuel tbl_size offset
    hopen hm hr hio hlen hoff h76 hfull hchain hfuel
  have hids := chainAt_ids hchain
  have hrid := hids r (by simp)
  refine ⟨?_, by rw [hmain]; rfl, by rw [hmain]; simp [exitStatus]⟩
  rw [hmain]
  simp only [filesAfter, artifacts]
  rw [artifacts_chainEvents, List.map_append, List.map_cons]
  apply foldl_store_last
  intro a ha
  obtain ⟨q, hq, rfl⟩ := List.mem_map.mp ha
  have hqid := hids q (by simp [hq])
  intro hname
  exact hlast q hq (vbiosName_inj (by omega) (by omega) (by omega) (by omega) hname)

/-- C12, witness: two records `(0x1002, 0x1586)`, eight payload bytes and
then four; the file ends with the four bytes of the second. -/
theorem last_record_wins_witness :
    chainAt (collisionTable.take 0x90) 0x4C collisionRecords ∧
    filesAfter (fun _ => none) (main (envOf collisionTable allFull) 3) "vbios_1002_1586.bin"
      = some [0xDE, 0xAD, 0xBE, 0xEF] ∧
    extractedCount (main (envOf collisionTable allFull) 3) = 2 := by
  have h := last_record_wins (envOf collisionTable allFull) collisionTable
    [{ vendorID := 0x1002, deviceID := 0x1586,
       payload := [0x11, 0x22, 0x33, 0x44, 0x55, 0x66, 0x77, 0x88] }] [] recordA 3 0x90 0x4C
    (fun _ => none) rfl rfl rfl (fun _ => rfl) (by decide) (by decide) (by decide) (by decide)
    (by decide) (by intro q hq; cases hq) (by decide)
  exact ⟨by decide, h.1, h.2.1⟩

/-! ## C13: idempotence of a run -/

/-- C13 (idempotence), as the code behaves: on `oversizedTable`, with every
file created and written, a run creates `vbios_1002_1586.bin` and hands
`fwrite` 256 bytes of which 252 lie outside the table. For every amount of
fuel and every initial directory the run has no exit status and leaves no
directory that the table determines, so a second run has no defined state to
start from and nothing to agree with. -/
theorem run_on_oversized_table_is_undefined :
    main (envOf oversizedTable allFull) 1
      = .walked ⟨.outOfBounds, 0,
          [⟨0x4C, 0x1002, 0x1586, "vbios_1002_1586.bin", 0x100, .faulted⟩]⟩ ∧
    ∀ (fuel : Nat) (fs : FileSystem),
      exitStatus (main (envOf oversizedTable allFull) fuel) = none ∧
      directoryAfter fs (main (envOf oversizedTable allFull) fuel) = none := by
  refine ⟨by decide, ?_⟩
  intro fuel fs
  have hstat : exitStatus (main (envOf oversizedTable allFull) fuel) = none := by
    have hload := main_loaded (envOf oversizedTable allFull) oversizedTable fuel 0x6C 0x4C
      rfl rfl rfl (by decide) (by decide) (by decide) (by decide)
    rw [hload]
    cases fuel with
    | zero =>
      rw [walk_zero _ _ _ _ (by decide)]
      rfl
    | succ n =>
      obtain ⟨e, hw, -⟩ := walk_oversized allFull (oversizedTable.take 0x6C) ⟨0x4C, 0, []⟩
        0x100 n (by decide) (by decide) (by decide) (by decide)
      have hlen : (oversizedTable.take 0x6C).length = 0x6C := by decide
      rw [hlen] at hw
      show exitStatus (.walked (walk allFull (oversizedTable.take 0x6C) 0x6C (n + 1)
        ⟨0x4C, 0, []⟩)) = none
      rw [hw]
      rfl
  refine ⟨hstat, ?_⟩
  unfold directoryAfter
  rw [hstat]

/-! ## C14: a truncated header is fatal -/

/-- C14 (truncated header): the fixed prefix takes `36 + 16 + 4 + 4 + 16 = 76`
bytes, and when the stream holds fewer the loader returns 1 at the header
read (or at `malloc`), the same way whatever the bytes of the stream: no
field is decoded, the loop is not entered and no file is created. -/
theorem truncated_header_is_fatal (env : Env) (stream : List Byte) (fuel : Nat)
    (hopen : env.vfct = some stream) (hshort : stream.length < 76) :
    sizeofVfct = 76 ∧
    main env fuel
      = (if env.mallocOk = false then .loadFailed .allocFailed
          else .loadFailed .truncatedHeader) ∧
    exitStatus (main env fuel) = some 1 ∧
    artifacts (main env fuel) = [] ∧
    trace (main env fuel) = [] := by
  have h := main_truncated_header env stream fuel hopen hshort
  rw [h]
  cases env.mallocOk <;> simp [sizeofVfct, exitStatus, artifacts, trace]

/-- C14, witness: a stream of 75 bytes. -/
theorem truncated_header_is_fatal_witness :
    shortStream.length = 75 ∧
    main (envOf shortStream allFull) 4 = .loadFailed .truncatedHeader ∧
    exitStatus (main (envOf shortStream allFull) 4) = some 1 := by
  have h := truncated_header_is_fatal (envOf shortStream allFull) shortStream 4 rfl
    (by decide)
  exact ⟨by decide, h.2.1, h.2.2.1⟩

/-! ## C15: loader output and field layout -/

/-- C15 (loader output and field layout), with the offsets of the code: for
a stream of at least `L` bytes whose little-endian `ULONG` at byte 4 is
`L ≥ 76`, with memory available, the loop runs on exactly the first `L` bytes
of the stream, from the cursor stored little-endian at byte `0x34`; and every
record the loop handles has its vendor ID at `c + 12`, its device ID at
`c + 14` and its payload length at `c + 24`, all little-endian, and a
payload that starts at `c + 28`. -/
theorem loader_output_and_layout (env : Env) (stream : List Byte) (fuel tbl_size : Nat)
    (hopen : env.vfct = some stream) (hm : env.mallocOk = true) (hr : env.reallocOk = true)
    (hlen : readU32 stream 4 = some tbl_size)
    (h76 : 76 ≤ tbl_size) (hfull : tbl_size ≤ stream.length) :
    tbl_size = leValue ((stream.drop 4).take 4) ∧
    (stream.take tbl_size).length = tbl_size ∧
    stream.take tbl_size = stream.take 76 ++ (stream.drop 76).take (tbl_size - 76) ∧
    main env fuel = .walked (walk env.io (stream.take tbl_size) tbl_size fuel
      ⟨leValue ((stream.drop 0x34).take 4), 0, []⟩) ∧
    ∀ e ∈ trace (main env fuel),
      e.vendorID = leValue (((stream.take tbl_size).drop (e.cursor + 12)).take 2) ∧
      e.deviceID = leValue (((stream.take tbl_size).drop (e.cursor + 14)).take 2) ∧
      e.imageLength = leValue (((stream.take tbl_size).drop (e.cursor + 24)).take 4) ∧
      e.cursor + 28 ≤ tbl_size ∧
      ∀ bytes, e.result = .written bytes →
        e.cursor + 28 + e.imageLength ≤ tbl_size ∧
        bytes = ((stream.take tbl_size).drop (e.cursor + 28)).take e.imageLength := by
  have hbl : (stream.take tbl_size).length = tbl_size := by simp [hfull]
  obtain ⟨offset, hoff⟩ := readU32_some_of_le stream offVBIOSImageOffset
    (by simp only [offVBIOSImageOffset]; omega)
  have hoffv : offset = leValue ((stream.drop 0x34).take 4) := readU32_eq_leValue hoff
  have hmain := main_loaded env stream fuel tbl_size offset hopen hm hr hlen hoff h76 hfull
  have hsplit : stream.take tbl_size = stream.take 76 ++ (stream.drop 76).take (tbl_size - 76) := by
    have h := List.take_add stream 76 (tbl_size - 76)
    have e : 76 + (tbl_size - 76) = tbl_size := by omega
    rw [e] at h
    exact h
  refine ⟨readU32_eq_leValue hlen, hbl, hsplit, by rw [hmain, hoffv], ?_⟩
  intro e he
  rw [hmain] at he
  have hh := walk_headers env.io (stream.take tbl_size) tbl_size fuel ⟨offset, 0, []⟩
    (by intro x hx; simp at hx) e he
  have hp := walk_payloads env.io (stream.take tbl_size) tbl_size fuel ⟨offset, 0, []⟩
    (by intro x b hx; simp at hx) e
  have hb := readU32_bound hh.2.2.1
  rw [hbl] at hb
  refine ⟨readU16_eq_leValue hh.1, readU16_eq_leValue hh.2.1, readU32_eq_leValue hh.2.2.1,
    by simp only [offImageLength] at hb; omega, ?_⟩
  intro bytes hres
  have hrb := hp bytes he hres
  have hbound := readBytes_bound hrb
  rw [hbl] at hbound
  refine ⟨hbound, ?_⟩
  unfold readBytes at hrb
  split at hrb
  · exact (Option.some.inj hrb).symm
  · cases hrb

/-- C15, witness: Scenario A, loaded whole and decoded at `0x4C`. -/
theorem loader_output_and_layout_witness :
    readU32 scenarioA 4 = some 0x6C ∧
    main (envOf scenarioA allFull) 2
      = .walked (walk allFull (scenarioA.take 0x6C) 0x6C 2
          ⟨leValue ((scenarioA.drop 0x34).take 4), 0, []⟩) ∧
    leValue ((scenarioA.drop 0x34).take 4) = 0x4C ∧
    leValue (((scenarioA.take 0x6C).drop (0x4C + 24)).take 4) = 4 ∧
    ((scenarioA.take 0x6C).drop (0x4C + 28)).take 4 = [0xDE, 0xAD, 0xBE, 0xEF] := by
  have h := loader_output_and_layout (envOf scenarioA allFull) scenarioA 2 0x6C rfl rfl rfl
    (by decide) (by decide) (by decide)
  exact ⟨by decide, h.2.2.2.1, by decide, by decide, by decide⟩

/-- C15, as stated, fails: in Scenario A the loop uses the payload length 4
stored at `c + 24` and writes the bytes that start at `c + 28`; the
little-endian value at `c + 28` is `0xEFBEADDE` and no four bytes exist at
`c + 32`. -/
theorem record_layout_as_stated_fails :
    trace (main (envOf scenarioA allFull) 2)
      = [⟨0x4C, 0x1002, 0x1586, "vbios_1002_1586.bin", 4, .written [0xDE, 0xAD, 0xBE, 0xEF]⟩] ∧
    readU32 scenarioA (0x4C + 24) = some 4 ∧
    readU32 scenarioA (0x4C + 28) = some 0xEFBEADDE ∧
    readBytes scenarioA (0x4C + 28) 4 = some [0xDE, 0xAD, 0xBE, 0xEF] ∧
    readBytes scenarioA (0x4C + 32) 4 = none := by
  refine ⟨by decide, by decide, by decide, by decide, by decide⟩

/-! ## C16: a zero-length record ends the chain -/

/-- C16 (sentinel): when the loop reaches, after `n` iterations, a cursor
inside the table whose `ImageLength` is zero, it ends there normally: the
events of the run are exactly the `n` events of the iterations before, and
no further loop state exists, whatever bytes follow in the buffer. -/
theorem zero_length_record_ends_chain (io : Nat → IoResult) (buf : List Byte)
    (tbl_size n fuel : Nat) (s0 s : WalkState)
    (hreach : stepN io buf tbl_size n s0 = some s)
    (hzero : readU32 buf (s.offset + offImageLength) = some 0)
    (hfuel : n < fuel) :
    walk io buf tbl_size fuel s0 = ⟨.done, s.extracted_count, s.events⟩ ∧
    s.events.length = s0.events.length + n ∧
    ∀ m, n < m → stepN io buf tbl_size m s0 = none := by
  refine ⟨?_, stepN_events_length io buf tbl_size n s0 s hreach, ?_⟩
  · obtain ⟨k, rfl⟩ : ∃ k, fuel = n + (k + 1) := ⟨fuel - n - 1, by omega⟩
    rw [walk_of_stepN io buf tbl_size n (k + 1) s0 s hreach]
    by_cases hlt : s.offset < tbl_size
    · rw [walk_succ _ _ _ _ _ hlt, loopBody_sentinel _ _ _ hzero]
    · rw [walk_exit _ _ _ _ _ hlt]
  · have h1 : stepN io buf tbl_size (n + 1) s0 = none := by
      rw [stepN_succ_bind, hreach]
      exact stepN_one_sentinel io buf tbl_size s hzero
    intro m hm
    exact stepN_none_mono io buf tbl_size s0 h1 m (by omega)

/-- C16, witness: a record, a zero header at `0x6C`, and a well-formed record
at `0x88` that the run never handles. -/
theorem zero_length_record_ends_chain_witness :
    chainAt sentinelMidTable 0x88 [⟨0x1002, 0x1587, payloadA⟩] ∧
    walk allFull sentinelMidTable 0xA8 4 ⟨0x4C, 0, []⟩
      = ⟨.done, 1,
          [⟨0x4C, 0x1002, 0x1586, "vbios_1002_1586.bin", 4, .written [0xDE, 0xAD, 0xBE, 0xEF]⟩]⟩ ∧
    main (envOf sentinelMidTable allFull) 4
      = .walked ⟨.done, 1,
          [⟨0x4C, 0x1002, 0x1586, "vbios_1002_1586.bin", 4, .written [0xDE, 0xAD, 0xBE, 0xEF]⟩]⟩ ∧
    exitStatus (main (envOf sentinelMidTable allFull) 4) = some 0 :=
  ⟨by decide,
    (zero_length_record_ends_chain allFull sentinelMidTable 0xA8 1 4 ⟨0x4C, 0, []⟩
      ⟨0x6C, 1,
        [⟨0x4C, 0x1002, 0x1586, "vbios_1002_1586.bin", 4, .written [0xDE, 0xAD, 0xBE, 0xEF]⟩]⟩
      (by decide) (by decide) (by decide)).1,
    by decide, by decide⟩

/-! ## C17: safety and termination on well-formed chains -/

/-- C17 (well-formed chains), with the header size of the code: for a table
buffer shorter than `2 ^ 32` and a start offset such that every cursor the
loop reaches inside the table has its 28-byte header inside the table and,
for a non-zero `ImageLength`, its payload too, the loop ends normally
without reading outside the table; every event lies inside the table, the
cursor advances without wrap-around and strictly increases, and at most
`(tableLength - start) / 29` records are emitted. -/
theorem well_formed_chain_is_safe (io : Nat → IoResult) (buf : List Byte) (start fuel : Nat)
    (h32 : buf.length < 2 ^ 32)
    (hwf : ∀ n s, stepN io buf buf.length n ⟨start, 0, []⟩ = some s → s.offset < buf.length →
      fitsAt sizeofImageHeader buf buf.length s.offset)
    (hfuel : (buf.length - start) / 29 < fuel) :
    (walk io buf buf.length fuel ⟨start, 0, []⟩).status = .done ∧
    (walk io buf buf.length fuel ⟨start, 0, []⟩).events.length ≤ (buf.length - start) / 29 ∧
    ((walk io buf buf.length fuel ⟨start, 0, []⟩).events.map Event.cursor).Pairwise
      (fun a b => a < b) ∧
    ∀ e ∈ (walk io buf buf.length fuel ⟨start, 0, []⟩).events,
      start ≤ e.cursor ∧
      e.cursor + sizeofImageHeader + e.imageLength ≤ buf.length ∧
      advance e.cursor e.imageLength = e.cursor + sizeofImageHeader + e.imageLength := by
  obtain ⟨new, hst, hev, hcount, hsorted, hall⟩ :=
    walk_safe io buf h32 fuel ⟨start, 0, []⟩ hwf hfuel
  simp only [List.nil_append] at hev
  rw [hev]
  exact ⟨hst, hcount, hsorted, hall⟩

/-- C17, witness: the table of Scenario A from its image offset. -/
theorem well_formed_chain_is_safe_witness :
    (walk allFull scenarioA scenarioA.length 2 ⟨0x4C, 0, []⟩).status = .done ∧
    (walk allFull scenarioA scenarioA.length 2 ⟨0x4C, 0, []⟩).events.length
      ≤ (scenarioA.length - 0x4C) / 29 ∧
    (scenarioA.length - 0x4C) / 29 = 1 := by
  have hwf : ∀ n s, stepN allFull scenarioA scenarioA.length n ⟨0x4C, 0, []⟩ = some s →
      s.offset < scenarioA.length →
      fitsAt sizeofImageHeader scenarioA scenarioA.length s.offset := by
    intro n s hs hlt
    by_cases hn : n < 2
    · exact (by decide : ∀ n < 2, ∀ s ∈ stepN allFull scenarioA scenarioA.length n ⟨0x4C, 0, []⟩,
        s.offset < scenarioA.length →
        fitsAt sizeofImageHeader scenarioA scenarioA.length s.offset) n hn s hs hlt
    · have hnone := stepN_none_mono allFull scenarioA scenarioA.length ⟨0x4C, 0, []⟩
        (by decide : stepN allFull scenarioA scenarioA.length 2 ⟨0x4C, 0, []⟩ = none)
        n (by omega)
      rw [hnone] at hs
      cases hs
  have h := well_formed_chain_is_safe allFull scenarioA 0x4C 2 (by decide) hwf (by decide)
  exact ⟨h.1, h.2.1, by decide⟩

/-- C17, as stated, fails: in `nineRecordTable` every cursor the loop reaches
has 32 bytes left in the table and, for a non-zero `ImageLength`, room for
32 bytes and the payload; the loop emits 9 records, more than
`(0x171 - 0x4C) / 33 = 8`, because each record takes 28 bytes and its
payload. -/
theorem emitted_record_bound_as_stated_fails :
    (∀ n s, stepN allFull nineRecordTable 0x171 n ⟨0x4C, 0, []⟩ = some s → s.offset < 0x171 →
      fitsAt 32 nineRecordTable 0x171 s.offset) ∧
    nineRecordTable.length = 0x171 ∧
    (walk allFull nineRecordTable 0x171 16 ⟨0x4C, 0, []⟩).status = .done ∧
    (walk allFull nineRecordTable 0x171 16 ⟨0x4C, 0, []⟩).events.length = 9 ∧
    (0x171 - 0x4C) / 33 = 8 := by
  refine ⟨?_, by decide!, by decide!, by decide!, by decide⟩
  intro n s hs hlt
  by_cases hn : n < 10
  · exact (by decide : ∀ n < 10, ∀ s ∈ stepN allFull nineRecordTable 0x171 n ⟨0x4C, 0, []⟩,
      s.offset < 0x171 → fitsAt 32 nineRecordTable 0x171 s.offset) n hn s hs hlt
  · have hnone := stepN_none_mono allFull nineRecordTable 0x171 ⟨0x4C, 0, []⟩
      (by decide : stepN allFull nineRecordTable 0x171 10 ⟨0x4C, 0, []⟩ = none) n (by omega)
    rw [hnone] at hs
    cases hs

/-! ## C18: artifact names are injective -/

/-- C18 (injective names): for identifiers below 65536, two pairs with the
same name `vbios_%x_%x.bin` are the same pair. -/
theorem artifact_names_injective (vendorID deviceID vendorID1 deviceID1 : Nat)
    (hv : vendorID < 65536) (hd : deviceID < 65536)
    (hv1 : vendorID1 < 65536) (hd1 : deviceID1 < 65536)
    (h : vbiosName vendorID deviceID = vbiosName vendorID1 deviceID1) :
    vendorID = vendorID1 ∧ deviceID = deviceID1 :=
  vbiosName_inj (by omega) (by omega) (by omega) (by omega) h

/-- C18, witness: the pairs `(0x1, 0x23)` and `(0x12, 0x3)`, whose digits
agree when run together, have different names. -/
theorem artifact_names_injective_witness :
    vbiosName 0x1 0x23 = "vbios_1_23.bin" ∧ vbiosName 0x12 0x3 = "vbios_12_3.bin" ∧
    vbiosName 0x1 0x23 ≠ vbiosName 0x12 0x3 ∧
    (0x1002 = 0x1002 ∧ 0x1586 = 0x1586) :=
  ⟨by decide, by decide,
    fun h => absurd
      (artifact_names_injective 0x1 0x23 0x12 0x3 (by decide) (by decide) (by decide)
        (by decide) h).1 (by decide),
    artifact_names_injective 0x1002 0x1586 0x1002 0x1586 (by decide) (by decide) (by decide)
      (by decide) rfl⟩

/-! ## C19: an image offset at or past the end of the table -/

/-- C19 (unchecked image offset): for a loaded table whose `VBIOSImageOffset`
is at least `TableLength`, the loop condition fails at once: the body is
never executed, no event is recorded, no file is created and the program
returns 1, for every amount of fuel. -/
theorem offset_beyond_table_extracts_nothing (env : Env) (stream : List Byte)
    (fuel tbl_size offset : Nat)
    (hopen : env.vfct = some stream)
    (hlen : readU32 stream offTableLength = some tbl_size)
    (hoff : readU32 stream offVBIOSImageOffset = some offset)
    (h76 : sizeofVfct ≤ tbl_size) (hfull : tbl_size ≤ stream.length)
    (hbeyond : tbl_size ≤ offset) :
    exitStatus (main env fuel) = some 1 ∧
    artifacts (main env fuel) = [] ∧
    trace (main env fuel) = [] ∧
    stepN env.io (stream.take tbl_size) tbl_size 1 ⟨offset, 0, []⟩ = none ∧
    (env.mallocOk = true → env.reallocOk = true →
      main env fuel = .walked ⟨.done, 0, []⟩) := by
  have hw : walk env.io (stream.take tbl_size) tbl_size fuel ⟨offset, 0, []⟩
      = ⟨.done, 0, []⟩ := walk_exit _ _ _ _ _ (by show ¬ offset < tbl_size; omega)
  have hs : stepN env.io (stream.take tbl_size) tbl_size 1 ⟨offset, 0, []⟩ = none := by
    have : ¬ offset < tbl_size := by omega
    simp [stepN, this]
  rw [main_of_table env stream fuel tbl_size offset hopen hlen hoff h76 hfull, hw]
  cases env.mallocOk <;> cases env.reallocOk <;> simp [exitStatus, artifacts, trace, hs]

/-- C19, witness: a table of `0x6C` bytes whose image offset is `0x6C`, with
a well-formed record at `0x4C` that is never decoded. -/
theorem offset_beyond_table_extracts_nothing_witness :
    readU32 offsetAtEndTable offVBIOSImageOffset = some 0x6C ∧
    readU32 offsetAtEndTable offTableLength = some 0x6C ∧
    main (envOf offsetAtEndTable allFull) 0 = .walked ⟨.done, 0, []⟩ ∧
    exitStatus (main (envOf offsetAtEndTable allFull) 0) = some 1 := by
  have h := offset_beyond_table_extracts_nothing (envOf offsetAtEndTable allFull)
    offsetAtEndTable 0 0x6C 0x6C rfl (by decide) (by decide) (by decide) (by decide)
    (by decide)
  exact ⟨by decide, by decide, h.2.2.2.2 rfl rfl, h.1⟩


end VbiosExtract
